import Mathlib

/-!
Shallow embedding of the incremental LSIF bundle merge engine
(`enterprise/cmd/precise-code-intel-worker/internal/worker/patch.go`).

Go maps are embedded as association lists (`List (K × V)`): `mapLookup`
returns the first binding, `mapInsert` overwrites in place or appends, and
`mapErase` removes a key.  Go's nondeterministic map-iteration order is fixed
to the association-list order everywhere except the definition/reference merge
loop over `defResultsByPath`, whose traversal order is an explicit parameter
(`defPathOrder`) so that run-to-run nondeterminism of that loop can be
reasoned about.  The randomness source behind `uuid.NewRandom` is an explicit
supply: `some id` is a successful draw, `none` a failed one.  Mutation through
shared Go map references is threaded as explicit state.
-/

namespace Patch

abbrev ID := String
abbrev Path := String

/-- Embeds `lsifstore.RangeData` (the fields used by `patch.go`). -/
structure RangeData where
  StartLine : Int
  StartCharacter : Int
  EndLine : Int
  EndCharacter : Int
  DefinitionResultID : ID
  ReferenceResultID : ID
  HoverResultID : ID
  MonikerIDs : List ID
deriving DecidableEq, Inhabited

/-- Embeds `lsifstore.DocumentIDRangeID`. -/
structure DocumentIDRangeID where
  DocumentID : ID
  RangeID : ID
deriving DecidableEq, Inhabited

/-- Embeds `lsifstore.DocumentData` (the `Ranges` table used by `patch.go`). -/
structure DocumentData where
  Ranges : List (ID × RangeData)
deriving DecidableEq, Inhabited

/-- Embeds `lsifstore.ResultChunkData`. -/
structure ResultChunkData where
  DocumentPaths : List (ID × Path)
  DocumentIDRangeIDs : List (ID × List DocumentIDRangeID)
deriving DecidableEq, Inhabited

/-- Embeds `lsifstore.MetaData` (only `NumResultChunks` is used). -/
structure MetaData where
  NumResultChunks : Nat
deriving DecidableEq, Inhabited

/-- Embeds `correlation.GroupedBundleDataMaps` (the fields used by `patch.go`). -/
structure GroupedBundleDataMaps where
  Meta : MetaData
  Documents : List (Path × DocumentData)
  ResultChunks : List (Nat × ResultChunkData)
deriving DecidableEq, Inhabited

/-- Modelled from the spec: `gitserver.Status`, the per-file change
classification enum over added / modified / deleted / unchanged (§3
"FileStatus"); the `gitserver` package is not part of the sources. -/
inductive Status where
  | Added
  | Modified
  | Deleted
  | Unchanged
deriving DecidableEq, Inhabited

/-- First-binding lookup in an association list (Go map read). -/
def mapLookup {K V : Type} [DecidableEq K] : List (K × V) → K → Option V
  | [], _ => none
  | kv :: rest, k => if kv.1 = k then some kv.2 else mapLookup rest k

/-- Overwrite-or-append insertion into an association list (Go map write). -/
def mapInsert {K V : Type} [DecidableEq K] : List (K × V) → K → V → List (K × V)
  | [], k, v => [(k, v)]
  | kv :: rest, k, v => if kv.1 = k then (k, v) :: rest else kv :: mapInsert rest k v

/-- Key removal from an association list (Go map delete). -/
def mapErase {K V : Type} [DecidableEq K] : List (K × V) → K → List (K × V)
  | [], _ => []
  | kv :: rest, k => if kv.1 = k then mapErase rest k else kv :: mapErase rest k

/-- Reading a Go `map[string]gitserver.Status`; a missing key yields the
modelled zero value.  Modelled from the spec: the spec's precondition (§6)
requires an entry for every participating path, so theorems only consult
explicit entries; `Unchanged` is used as the zero value. -/
def statusOf (fileStatus : List (Path × Status)) (p : Path) : Status :=
  (mapLookup fileStatus p).getD Status.Unchanged

/-- Modelled from the spec: `lsifstore.HashKey`, a deterministic stable hash
of an identifier modulo the chunk count (§4.2 `shardOf`); `lsifstore` is not
part of the sources. -/
def HashKey (id : ID) (numResultChunks : Nat) : Nat :=
  (id.data.foldl (fun h c => h * 31 + c.toNat) 7) % numResultChunks

/-- Modelled from the spec: `lsifstore.CompareRanges`, the total order over
ranges by the tuple (startLine, startChar, endLine, endChar), ascending
(§4.1); `lsifstore` is not part of the sources. -/
def CompareRanges (a b : RangeData) : Int :=
  if a.StartLine < b.StartLine then -1
  else if b.StartLine < a.StartLine then 1
  else if a.StartCharacter < b.StartCharacter then -1
  else if b.StartCharacter < a.StartCharacter then 1
  else if a.EndLine < b.EndLine then -1
  else if b.EndLine < a.EndLine then 1
  else if a.EndCharacter < b.EndCharacter then -1
  else if b.EndCharacter < a.EndCharacter then 1
  else 0

/-- The range a document's table holds at an ID (Go indexing `ranges[rngID]`,
zero value on a miss). -/
def rangeAt (ranges : List (ID × RangeData)) (i : ID) : RangeData :=
  (mapLookup ranges i).getD default

/-- Embeds `sortedRangeIDs`: collect the range IDs and sort them by the range
they name (`sort.Slice` with `CompareRanges < 0`). -/
def sortedRangeIDs (ranges : List (ID × RangeData)) : List ID :=
  List.insertionSort
    (fun i j => CompareRanges (rangeAt ranges i) (rangeAt ranges j) ≤ 0)
    (ranges.map Prod.fst)

/-- Embeds `getDefRef`: resolve a result ID to its location list and the
chunk holding it; a missing chunk or list gives the zero value. -/
def getDefRef (resultID : ID) (meta : MetaData)
    (resultChunks : List (Nat × ResultChunkData)) :
    List DocumentIDRangeID × ResultChunkData :=
  let chunkID := HashKey resultID meta.NumResultChunks
  let chunk := (mapLookup resultChunks chunkID).getD ⟨[], []⟩
  let docRngIDs := (mapLookup chunk.DocumentIDRangeIDs resultID).getD []
  (docRngIDs, chunk)

/-- The location list `getDefRef` returns for a result ID. -/
def storedList (meta : MetaData) (chunks : List (Nat × ResultChunkData))
    (resultID : ID) : List DocumentIDRangeID :=
  (getDefRef resultID meta chunks).1

/-- The `documentPaths` table of the chunk `getDefRef` returns for a result ID. -/
def storedDP (meta : MetaData) (chunks : List (Nat × ResultChunkData))
    (resultID : ID) : List (ID × Path) :=
  (getDefRef resultID meta chunks).2.DocumentPaths

/-- The randomness source behind `uuid.NewRandom`: `some id` is a successful
draw, `none` a failed one. -/
abbrev IDSupply := List (Option ID)

/-- Embeds `newID`: draw a fresh identifier, failing exactly when the
randomness source fails. -/
def newID : IDSupply → Except String ID × IDSupply
  | [] => (Except.error "uuid: randomness source failed", [])
  | none :: rest => (Except.error "uuid: randomness source failed", rest)
  | some id :: rest => (Except.ok id, rest)

/-- Embeds the `unequalUnmodifiedPathsErr` message of `patch.go`. -/
def unequalUnmodifiedPathsErr : String :=
  "The ranges of unmodified path in LSIF patch do not match ranges of the same path in the base LSIF dump."

/-- Writing a location list through a chunk handle obtained from `getDefRef`
(Go: `chunk.DocumentIDRangeIDs[resultID] = l`, live through the shared map). -/
def setChunkList (chunks : List (Nat × ResultChunkData)) (meta : MetaData)
    (resultID : ID) (l : List DocumentIDRangeID) : List (Nat × ResultChunkData) :=
  let chunkID := HashKey resultID meta.NumResultChunks
  let chunk := (mapLookup chunks chunkID).getD ⟨[], []⟩
  mapInsert chunks chunkID
    { chunk with DocumentIDRangeIDs := mapInsert chunk.DocumentIDRangeIDs resultID l }

/-- Registering a document path through a chunk handle obtained from
`getDefRef` (Go: `chunk.DocumentPaths[docID] = p`, live through the shared map). -/
def setChunkDocPath (chunks : List (Nat × ResultChunkData)) (meta : MetaData)
    (resultID : ID) (docID : ID) (p : Path) : List (Nat × ResultChunkData) :=
  let chunkID := HashKey resultID meta.NumResultChunks
  let chunk := (mapLookup chunks chunkID).getD ⟨[], []⟩
  mapInsert chunks chunkID
    { chunk with DocumentPaths := mapInsert chunk.DocumentPaths docID p }

/-- One range of `removeRefsIn`'s inner loop: skip already-processed reference
results, otherwise filter the reference result's location list to exclude
entries whose document path is in the removed set, and write it back. -/
def removeRefsStep (paths : List Path) (meta : MetaData)
    (st : List ID × List (Nat × ResultChunkData)) (rng : RangeData) :
    List ID × List (Nat × ResultChunkData) :=
  if rng.ReferenceResultID ∈ st.1 then st
  else
    let pr := getDefRef rng.ReferenceResultID meta st.2
    let filteredRefs := pr.1.filter fun ref =>
      decide (((mapLookup pr.2.DocumentPaths ref.DocumentID).getD "") ∉ paths)
    (rng.ReferenceResultID :: st.1,
     setChunkList st.2 meta rng.ReferenceResultID filteredRefs)

/-- The two nested loops of `removeRefsIn` over the paths and their ranges,
threading the processed-reference-ID set and the chunks. -/
def removeRefsFold (paths : List Path) (meta : MetaData)
    (docs : List (Path × DocumentData)) (st0 : List ID × List (Nat × ResultChunkData)) :
    List ID × List (Nat × ResultChunkData) :=
  paths.foldl
    (fun st p =>
      (((mapLookup docs p).getD ⟨[]⟩).Ranges.map Prod.snd).foldl
        (removeRefsStep paths meta) st)
    st0

/-- Embeds `removeRefsIn`. -/
def removeRefsIn (paths : List Path) (meta : MetaData)
    (docs : List (Path × DocumentData)) (chunks : List (Nat × ResultChunkData)) :
    List (Nat × ResultChunkData) :=
  (removeRefsFold paths meta docs ([], chunks)).2

/-- State threaded through `unifyRangeIDs`: the error (if any), the patch's
document table, the global old-to-new range-ID table (`updatedRngIDs`), the
collected result IDs to rewrite (`resultsToUpdate`), and the ID supply. -/
structure UnifySt where
  err : Option String
  docs : List (Path × DocumentData)
  updatedRngIDs : List (ID × ID)
  resultsToUpdate : List ID
  supply : IDSupply
deriving DecidableEq, Inhabited

/-- Insertion-order set insertion (Go `map[ID]struct\x7b\x7d` membership). -/
def addUnique (l : List ID) (x : ID) : List ID :=
  if x ∈ l then l else l ++ [x]

/-- Pairwise positional-identity check of `unifyRangeIDs` for an `unchanged`
path: zip of the two sorted ID sequences, failing on the first position
mismatch, accumulating patch-ID-to-base-ID bindings (`pathUpdatedRngIDs`). -/
def buildPairs (updateToDoc toUpdateDoc : DocumentData) :
    List (ID × ID) → List (ID × ID) → Except String (List (ID × ID))
  | acc, [] => Except.ok acc
  | acc, (updateToRngID, toUpdateRngID) :: rest =>
    let updateToRng := rangeAt updateToDoc.Ranges updateToRngID
    let toUpdateRng := rangeAt toUpdateDoc.Ranges toUpdateRngID
    if CompareRanges updateToRng toUpdateRng ≠ 0 then
      Except.error unequalUnmodifiedPathsErr
    else
      buildPairs updateToDoc toUpdateDoc (mapInsert acc toUpdateRngID updateToRngID) rest

/-- The `unchanged`-path invariant of `unifyRangeIDs`: equal counts and
pairwise equal positions of the two sorted range sequences, yielding the
patch-to-base range-ID mapping. -/
def buildPairMapping (updateToDoc toUpdateDoc : DocumentData) :
    Except String (List (ID × ID)) :=
  let updateToRngIDs := sortedRangeIDs updateToDoc.Ranges
  let toUpdateRngIDs := sortedRangeIDs toUpdateDoc.Ranges
  if toUpdateRngIDs.length ≠ updateToRngIDs.length then
    Except.error unequalUnmodifiedPathsErr
  else
    buildPairs updateToDoc toUpdateDoc [] (updateToRngIDs.zip toUpdateRngIDs)

/-- One binding of the in-place relabel loop of `unifyRangeIDs`
(`Ranges[new] = Ranges[old]; collect result IDs; delete(Ranges, old)`). -/
def relabelStep (st : DocumentData × List ID) (pr : ID × ID) :
    DocumentData × List ID :=
  let rng := rangeAt st.1.Ranges pr.1
  (⟨mapErase (mapInsert st.1.Ranges pr.2 rng) pr.1⟩,
   addUnique (addUnique st.2 rng.ReferenceResultID) rng.DefinitionResultID)

/-- One fresh-ID mint of `unifyRangeIDs` for a range of a changed path; the
fresh binding goes into the global `updatedRngIDs` table (and only there, as
in the source). -/
def mintStep (st : UnifySt) (rngID : ID) : UnifySt :=
  if st.err.isSome then st
  else
    match newID st.supply with
    | (Except.error e, s') => { st with err := some e, supply := s' }
    | (Except.ok nid, s') =>
      { st with updatedRngIDs := mapInsert st.updatedRngIDs rngID nid, supply := s' }

/-- One path of `unifyRangeIDs`'s per-document loop. -/
def unifyOnePath (updateToDocs : List (Path × DocumentData))
    (fileStatus : List (Path × Status)) (st : UnifySt) (path : Path) : UnifySt :=
  if st.err.isSome then st
  else
    let toUpdateDoc := (mapLookup st.docs path).getD ⟨[]⟩
    if statusOf fileStatus path = Status.Unchanged then
      match buildPairMapping ((mapLookup updateToDocs path).getD ⟨[]⟩) toUpdateDoc with
      | Except.error e => { st with err := some e }
      | Except.ok mapping =>
        let dr := mapping.foldl relabelStep (toUpdateDoc, st.resultsToUpdate)
        { st with docs := mapInsert st.docs path dr.1, resultsToUpdate := dr.2 }
    else
      (toUpdateDoc.Ranges.map Prod.fst).foldl mintStep st

/-- One result ID of `unifyRangeIDs`'s rewrite loop: substitute any range ID
found in `updatedRngIDs`, leave others untouched, write the list back. -/
def rewriteResult (meta : MetaData) (updatedRngIDs : List (ID × ID))
    (chunks : List (Nat × ResultChunkData)) (resultID : ID) :
    List (Nat × ResultChunkData) :=
  let results := (getDefRef resultID meta chunks).1
  let updated := results.map fun r =>
    match mapLookup updatedRngIDs r.RangeID with
    | some u => { DocumentID := r.DocumentID, RangeID := u }
    | none => { DocumentID := r.DocumentID, RangeID := r.RangeID }
  setChunkList chunks meta resultID updated

/-- Result of `unifyRangeIDs`: its error return value together with the
mutated-in-place patch documents, patch chunks, and remaining supply. -/
structure UnifyResult where
  err : Option String
  docs : List (Path × DocumentData)
  chunks : List (Nat × ResultChunkData)
  supply : IDSupply
deriving DecidableEq, Inhabited

/-- The per-document loop of `unifyRangeIDs` over all patch paths. -/
def unifyFoldSt (updateToDocs : List (Path × DocumentData))
    (fileStatus : List (Path × Status)) (toUpdateDocs : List (Path × DocumentData))
    (supply : IDSupply) : UnifySt :=
  (toUpdateDocs.map Prod.fst).foldl (unifyOnePath updateToDocs fileStatus)
    ⟨none, toUpdateDocs, [], [], supply⟩

/-- Embeds `unifyRangeIDs`.  On an early error return the mutations already
made persist (the Go maps are shared), and the rewrite loop is not reached. -/
def unifyRangeIDs (updateToDocs : List (Path × DocumentData))
    (toUpdateMeta : MetaData) (toUpdateDocs : List (Path × DocumentData))
    (toUpdateChunks : List (Nat × ResultChunkData))
    (fileStatus : List (Path × Status)) (supply : IDSupply) : UnifyResult :=
  match (unifyFoldSt updateToDocs fileStatus toUpdateDocs supply).err with
  | some e => ⟨some e, (unifyFoldSt updateToDocs fileStatus toUpdateDocs supply).docs,
      toUpdateChunks, (unifyFoldSt updateToDocs fileStatus toUpdateDocs supply).supply⟩
  | none =>
    ⟨none, (unifyFoldSt updateToDocs fileStatus toUpdateDocs supply).docs,
     (unifyFoldSt updateToDocs fileStatus toUpdateDocs supply).resultsToUpdate.foldl
       (rewriteResult toUpdateMeta
         (unifyFoldSt updateToDocs fileStatus toUpdateDocs supply).updatedRngIDs)
       toUpdateChunks,
     (unifyFoldSt updateToDocs fileStatus toUpdateDocs supply).supply⟩

/-- The modified-or-deleted path set of `patchData` (iteration order: the
`fileStatus` association list). -/
def modifiedOrDeletedPaths (fileStatus : List (Path × Status)) : List Path :=
  (fileStatus.filter fun ps =>
    decide (ps.2 = Status.Modified) || decide (ps.2 = Status.Deleted)).map Prod.fst

/-- The `pathsToCopy` set of `patchData`: reindexed files plus added files
(membership semantics of the Go set). -/
def pathsToCopy (reindexedFiles : List Path) (fileStatus : List (Path × Status)) :
    List Path :=
  reindexedFiles ++ (fileStatus.filter fun ps => decide (ps.2 = Status.Added)).map Prod.fst

/-- Phase 1 of the definition/reference merge: group the candidate definition
ranges referenced from the documents being copied by the path owning them,
deduplicating by range ID (first occurrence wins). -/
def collectDefResults (ptc : List Path) (patchMeta : MetaData)
    (patchDocs : List (Path × DocumentData))
    (patchChunks : List (Nat × ResultChunkData)) :
    List (Path × List (ID × RangeData)) :=
  ptc.foldl
    (fun acc path =>
      ((mapLookup patchDocs path).getD ⟨[]⟩).Ranges.foldl
        (fun acc pr =>
          let rng := pr.2
          if rng.DefinitionResultID = "" then acc
          else
            let defs := getDefRef rng.DefinitionResultID patchMeta patchChunks
            defs.1.foldl
              (fun acc defLoc =>
                let defPath := (mapLookup defs.2.DocumentPaths defLoc.DocumentID).getD ""
                let dRng := rangeAt ((mapLookup patchDocs defPath).getD ⟨[]⟩).Ranges defLoc.RangeID
                let defResults := (mapLookup acc defPath).getD []
                match mapLookup defResults defLoc.RangeID with
                | some _ => acc
                | none => mapInsert acc defPath (mapInsert defResults defLoc.RangeID dRng))
              acc)
        acc)
    []

/-- Step 2a of the definition/reference merge: resolve the canonical result
IDs for a candidate definition range — reuse the base document's existing
range's IDs for an `unchanged` path, otherwise mint two fresh IDs. -/
def resolveResultIDs (fileStatus : List (Path × Status)) (path : Path)
    (baseDoc : DocumentData) (defRngID : ID) (supply : IDSupply) :
    Except String (ID × ID) × IDSupply :=
  if statusOf fileStatus path = Status.Unchanged then
    let baseRng := rangeAt baseDoc.Ranges defRngID
    (Except.ok (baseRng.DefinitionResultID, baseRng.ReferenceResultID), supply)
  else
    match newID supply with
    | (Except.error e, s') => (Except.error e, s')
    | (Except.ok defID, s') =>
      match newID s' with
      | (Except.error e, s'') => (Except.error e, s'')
      | (Except.ok refID, s'') => (Except.ok (defID, refID), s'')

/-- State threaded through the definition/reference merge: the abort error
(if any), the base's result chunks, the patch's documents, and the supply. -/
structure MergeSt where
  err : Option String
  baseChunks : List (Nat × ResultChunkData)
  patchDocs : List (Path × DocumentData)
  supply : IDSupply
deriving DecidableEq, Inhabited

/-- Local state of the per-reference loop of the merge: the threaded merge
state, the accumulated base reference/definition location lists, and the two
path-to-document-ID tables reversed from the base chunks' `documentPaths`. -/
structure RefLoopSt where
  st : MergeSt
  baseRefs : List DocumentIDRangeID
  baseDefs : List DocumentIDRangeID
  refDocIDs : List (Path × ID)
  defDocIDs : List (Path × ID)
deriving DecidableEq, Inhabited

/-- Step c of §4.5 (source lines 119-141): when the reference's owning path
is not `unchanged`, relocate the entry into the base's document-ID namespace
and append it.  As in the source, the allocation table is keyed by `path`
(the definition's path, the outer loop variable), not by the reference's
owning path. -/
def mergeRefStageA (fileStatus : List (Path × Status)) (path : Path)
    (baseMeta : MetaData) (refID : ID) (patchPath : Path)
    (patchRef : DocumentIDRangeID) (acc : RefLoopSt) : RefLoopSt :=
  if statusOf fileStatus patchPath ≠ Status.Unchanged then
    match mapLookup acc.refDocIDs path with
    | some did =>
      { acc with baseRefs := acc.baseRefs ++ [⟨did, patchRef.RangeID⟩] }
    | none =>
      match newID acc.st.supply with
      | (Except.error e, s') =>
        { acc with st := { acc.st with err := some e, supply := s' } }
      | (Except.ok did, s') =>
        let ch' := setChunkDocPath acc.st.baseChunks baseMeta refID did path
        let st' : MergeSt := { acc.st with supply := s', baseChunks := ch' }
        let acc' := { acc with st := st', refDocIDs := mapInsert acc.refDocIDs path did }
        { acc' with baseRefs := acc.baseRefs ++ [⟨did, patchRef.RangeID⟩] }
  else acc

/-- Step d of §4.5 (source lines 143-167): if the base has no definition
locations yet, look for the co-located patch definition.  `patchDef` reflects
the Go range-variable aliasing of the source: the appended definition entry
is the last element of `patchDefs` whenever any element matches. -/
def mergeRefStageB (path : Path) (baseMeta : MetaData) (defID : ID)
    (patchDefChunk : ResultChunkData) (patchDefs : List DocumentIDRangeID)
    (patchPath : Path) (patchRef : DocumentIDRangeID) (acc : RefLoopSt) : RefLoopSt :=
  if acc.baseDefs = [] then
    let found := patchDefs.any fun t =>
      decide ((mapLookup patchDefChunk.DocumentPaths t.DocumentID).getD "" = patchPath)
        && decide (t.RangeID = patchRef.RangeID)
    if found then
      let v := (patchDefs.getLast?).getD default
      match mapLookup acc.defDocIDs path with
      | some did =>
        { acc with baseDefs := acc.baseDefs ++ [⟨did, v.RangeID⟩] }
      | none =>
        match newID acc.st.supply with
        | (Except.error e, s') =>
          { acc with st := { acc.st with err := some e, supply := s' } }
        | (Except.ok did, s') =>
          let ch' := setChunkDocPath acc.st.baseChunks baseMeta defID did path
          let st' : MergeSt := { acc.st with supply := s', baseChunks := ch' }
          let acc' := { acc with st := st', defDocIDs := mapInsert acc.defDocIDs path did }
          { acc' with baseDefs := acc.baseDefs ++ [⟨did, v.RangeID⟩] }
    else acc
  else acc

/-- Step e of §4.5 (source lines 169-184): if the reference's owning path is
being copied, rewrite that patch range's result IDs to the canonical pair. -/
def mergeRefStageC (ptc : List Path) (defID refID : ID) (patchPath : Path)
    (patchRef : DocumentIDRangeID) (acc : RefLoopSt) : RefLoopSt :=
  if patchPath ∈ ptc then
    let doc := (mapLookup acc.st.patchDocs patchPath).getD ⟨[]⟩
    let rng := rangeAt doc.Ranges patchRef.RangeID
    let rng' := { rng with DefinitionResultID := defID, ReferenceResultID := refID }
    let pd' := mapInsert acc.st.patchDocs patchPath ⟨mapInsert doc.Ranges patchRef.RangeID rng'⟩
    let st' : MergeSt := { acc.st with patchDocs := pd' }
    { acc with st := st' }
  else acc

/-- One patch-side reference location of the merge's inner loop (steps c-e of
§4.5); a `newID` failure in a stage aborts immediately (the remaining stages
are skipped, as the source returns the error). -/
def mergeOneRef (fileStatus : List (Path × Status)) (ptc : List Path)
    (path : Path) (baseMeta : MetaData) (patchRefChunk patchDefChunk : ResultChunkData)
    (patchDefs : List DocumentIDRangeID) (defID refID : ID)
    (acc : RefLoopSt) (patchRef : DocumentIDRangeID) : RefLoopSt :=
  if acc.st.err.isSome then acc
  else
    let patchPath := (mapLookup patchRefChunk.DocumentPaths patchRef.DocumentID).getD ""
    let acc1 := mergeRefStageA fileStatus path baseMeta refID patchPath patchRef acc
    if acc1.st.err.isSome then acc1
    else
      let acc2 := mergeRefStageB path baseMeta defID patchDefChunk patchDefs
        patchPath patchRef acc1
      if acc2.st.err.isSome then acc2
      else mergeRefStageC ptc defID refID patchPath patchRef acc2

/-- Reversal of a chunk's `documentPaths` table into a path-to-document-ID
table (source lines 111-118; later bindings win, as in Go map iteration). -/
def revDP (dp : List (ID × Path)) : List (Path × ID) :=
  dp.foldl (fun m ip => mapInsert m ip.2 ip.1) []

/-- The initial per-reference loop state of step b of §4.5: the base's
current reference/definition location lists under the canonical IDs and the
reversed document-ID tables of their chunks. -/
def refLoopInit (baseMeta : MetaData) (defID refID : ID) (st : MergeSt) : RefLoopSt :=
  ⟨st, (getDefRef refID baseMeta st.baseChunks).1, (getDefRef defID baseMeta st.baseChunks).1,
   revDP (getDefRef refID baseMeta st.baseChunks).2.DocumentPaths,
   revDP (getDefRef defID baseMeta st.baseChunks).2.DocumentPaths⟩

/-- The per-reference loop of §4.5 over the candidate definition's patch-side
reference locations. -/
def refLoopRun (fileStatus : List (Path × Status)) (ptc : List Path) (path : Path)
    (baseMeta : MetaData) (patchMeta : MetaData)
    (patchChunks : List (Nat × ResultChunkData)) (defID refID : ID)
    (drng : RangeData) (st : MergeSt) : RefLoopSt :=
  (getDefRef drng.ReferenceResultID patchMeta patchChunks).1.foldl
    (mergeOneRef fileStatus ptc path baseMeta
      (getDefRef drng.ReferenceResultID patchMeta patchChunks).2
      (getDefRef drng.DefinitionResultID patchMeta patchChunks).2
      (getDefRef drng.DefinitionResultID patchMeta patchChunks).1 defID refID)
    (refLoopInit baseMeta defID refID st)

/-- Steps b-f of §4.5 for one candidate definition range once the canonical
IDs are resolved: run the reference loop, then (unless it aborted) write the
merged reference/definition location lists back to the base chunks. -/
def mergeDefRangeCore (fileStatus : List (Path × Status)) (ptc : List Path)
    (path : Path) (baseMeta : MetaData) (patchMeta : MetaData)
    (patchChunks : List (Nat × ResultChunkData)) (defID refID : ID)
    (drng : RangeData) (st : MergeSt) : MergeSt :=
  if (refLoopRun fileStatus ptc path baseMeta patchMeta patchChunks defID refID drng st).st.err.isSome
  then (refLoopRun fileStatus ptc path baseMeta patchMeta patchChunks defID refID drng st).st
  else
    { (refLoopRun fileStatus ptc path baseMeta patchMeta patchChunks defID refID drng st).st with
      baseChunks :=
        setChunkList
          (setChunkList
            (refLoopRun fileStatus ptc path baseMeta patchMeta patchChunks defID refID drng st).st.baseChunks
            baseMeta refID
            (refLoopRun fileStatus ptc path baseMeta patchMeta patchChunks defID refID drng st).baseRefs)
          baseMeta defID
          (refLoopRun fileStatus ptc path baseMeta patchMeta patchChunks defID refID drng st).baseDefs }

/-- One candidate definition range of the merge's middle loop (steps a-f of
§4.5): resolve canonical IDs, gather the four location lists, fold the
patch-side references, then write the merged lists back to the base chunks. -/
def mergeDefRange (fileStatus : List (Path × Status)) (ptc : List Path)
    (path : Path) (baseMeta : MetaData) (baseDoc : DocumentData)
    (patchMeta : MetaData) (patchChunks : List (Nat × ResultChunkData))
    (defsMap : List (ID × RangeData)) (st : MergeSt) (defRngID : ID) : MergeSt :=
  if st.err.isSome then st
  else
    match resolveResultIDs fileStatus path baseDoc defRngID st.supply with
    | (Except.error e, s') => { st with err := some e, supply := s' }
    | (Except.ok (defID, refID), s') =>
      mergeDefRangeCore fileStatus ptc path baseMeta patchMeta patchChunks defID refID
        (rangeAt defsMap defRngID) { st with supply := s' }

/-- One definition-owning path of the merge's outer loop: fetch the base
document once and visit the candidate ranges in `sortedRangeIDs` order. -/
def mergeOnePath (fileStatus : List (Path × Status)) (ptc : List Path)
    (baseMeta : MetaData) (baseDocs : List (Path × DocumentData))
    (patchMeta : MetaData) (patchChunks : List (Nat × ResultChunkData))
    (defResultsByPath : List (Path × List (ID × RangeData)))
    (st : MergeSt) (path : Path) : MergeSt :=
  let baseDoc := (mapLookup baseDocs path).getD ⟨[]⟩
  let defsMap := (mapLookup defResultsByPath path).getD []
  (sortedRangeIDs defsMap).foldl
    (mergeDefRange fileStatus ptc path baseMeta baseDoc patchMeta patchChunks defsMap) st

/-- The merge's outer loop over `defResultsByPath`, traversed in the order
given by `defPathOrder` (Go map iteration order made explicit). -/
def mergeAll (fileStatus : List (Path × Status)) (ptc : List Path)
    (baseMeta : MetaData) (baseDocs : List (Path × DocumentData))
    (patchMeta : MetaData) (patchChunks : List (Nat × ResultChunkData))
    (defResultsByPath : List (Path × List (ID × RangeData)))
    (defPathOrder : List Path) (st : MergeSt) : MergeSt :=
  (defPathOrder.filter fun p => (mapLookup defResultsByPath p).isSome).foldl
    (mergeOnePath fileStatus ptc baseMeta baseDocs patchMeta patchChunks defResultsByPath)
    st

/-- Result of `patchData`: its error return value, the mutated base and patch
bundles, and the remaining supply. -/
structure PatchResult where
  err : Option String
  base : GroupedBundleDataMaps
  patch : GroupedBundleDataMaps
  supply : IDSupply
deriving DecidableEq, Inhabited

/-- The `unifyRangeIDs` result inside `patchData` (source line 45; its error
field is ignored by the caller, as in the source). -/
def patchUnify (base patch : GroupedBundleDataMaps)
    (fileStatus : List (Path × Status)) (supply : IDSupply) : UnifyResult :=
  unifyRangeIDs base.Documents patch.Meta patch.Documents patch.ResultChunks
    fileStatus supply

/-- The merge-loop state after `patchData`'s three mutation phases: stale
reference removal on the base, range-ID unification on the patch, and the
definition/reference merge over the collected candidate groups. -/
def patchMergeSt (base patch : GroupedBundleDataMaps) (reindexedFiles : List Path)
    (fileStatus : List (Path × Status)) (supply : IDSupply)
    (defPathOrder : List Path) : MergeSt :=
  mergeAll fileStatus (pathsToCopy reindexedFiles fileStatus) base.Meta base.Documents
    patch.Meta (patchUnify base patch fileStatus supply).chunks
    (collectDefResults (pathsToCopy reindexedFiles fileStatus) patch.Meta
      (patchUnify base patch fileStatus supply).docs
      (patchUnify base patch fileStatus supply).chunks)
    defPathOrder
    ⟨none,
     removeRefsIn (modifiedOrDeletedPaths fileStatus) base.Meta base.Documents
       base.ResultChunks,
     (patchUnify base patch fileStatus supply).docs,
     (patchUnify base patch fileStatus supply).supply⟩

/-- The apply phase (source lines 196-205): delete the removed documents,
then install the (merged) patch documents for every copied path. -/
def applyDocs (base : GroupedBundleDataMaps) (reindexedFiles : List Path)
    (fileStatus : List (Path × Status))
    (patchDocs : List (Path × DocumentData)) : List (Path × DocumentData) :=
  (pathsToCopy reindexedFiles fileStatus).foldl
    (fun d p => mapInsert d p ((mapLookup patchDocs p).getD ⟨[]⟩))
    (fileStatus.foldl
      (fun d ps => if ps.2 = Status.Deleted then mapErase d ps.1 else d)
      base.Documents)

/-- Embeds `patchData`.  As in the source, the return value of
`unifyRangeIDs` is not checked: its error is dropped and the merge continues
on the partially mutated patch bundle. -/
def patchData (base patch : GroupedBundleDataMaps) (reindexedFiles : List Path)
    (fileStatus : List (Path × Status)) (supply : IDSupply)
    (defPathOrder : List Path) : PatchResult :=
  match (patchMergeSt base patch reindexedFiles fileStatus supply defPathOrder).err with
  | some e =>
    ⟨some e,
     ⟨base.Meta, base.Documents,
      (patchMergeSt base patch reindexedFiles fileStatus supply defPathOrder).baseChunks⟩,
     ⟨patch.Meta,
      (patchMergeSt base patch reindexedFiles fileStatus supply defPathOrder).patchDocs,
      (patchUnify base patch fileStatus supply).chunks⟩,
     (patchMergeSt base patch reindexedFiles fileStatus supply defPathOrder).supply⟩
  | none =>
    ⟨none,
     ⟨base.Meta,
      applyDocs base reindexedFiles fileStatus
        (patchMergeSt base patch reindexedFiles fileStatus supply defPathOrder).patchDocs,
      (patchMergeSt base patch reindexedFiles fileStatus supply defPathOrder).baseChunks⟩,
     ⟨patch.Meta,
      (patchMergeSt base patch reindexedFiles fileStatus supply defPathOrder).patchDocs,
      (patchUnify base patch fileStatus supply).chunks⟩,
     (patchMergeSt base patch reindexedFiles fileStatus supply defPathOrder).supply⟩

/-- The path a location entry's document ID resolves to through the
`documentPaths` table of the chunk holding result `I`. -/
def resolvedPath (meta : MetaData) (chunks : List (Nat × ResultChunkData))
    (I : ID) (docID : ID) : Path :=
  (mapLookup (storedDP meta chunks I) docID).getD ""

/-- Every location entry of every result's stored list resolves to a path
whose status is not `Deleted`. -/
def CleanChunks (fileStatus : List (Path × Status)) (meta : MetaData)
    (chunks : List (Nat × ResultChunkData)) : Prop :=
  ∀ I : ID, ∀ e ∈ storedList meta chunks I,
    statusOf fileStatus (resolvedPath meta chunks I e.DocumentID) ≠ Status.Deleted

/-- Every chunk's `documentPaths` table has distinct document-ID keys (a Go
map invariant of the input bundles). -/
def NodupDP (meta : MetaData) (chunks : List (Nat × ResultChunkData)) : Prop :=
  ∀ I : ID, ((storedDP meta chunks I).map Prod.fst).Nodup

/- Concrete fixtures used by the counterexample and witness theorems. -/

/-- A sample range carrying definition result `D1` and reference result `R1`. -/
def rngU : RangeData :=
  { StartLine := 0, StartCharacter := 0, EndLine := 0, EndCharacter := 5,
    DefinitionResultID := "D1", ReferenceResultID := "R1",
    HoverResultID := "", MonikerIDs := [] }

/-- A range in file `a` whose definition result is `D` and reference result `R`. -/
def rngA : RangeData :=
  { StartLine := 0, StartCharacter := 0, EndLine := 0, EndCharacter := 1,
    DefinitionResultID := "D", ReferenceResultID := "R",
    HoverResultID := "", MonikerIDs := [] }

/-- A range in file `b` referencing the same results `D` and `R`. -/
def rngB : RangeData :=
  { StartLine := 2, StartCharacter := 0, EndLine := 2, EndCharacter := 1,
    DefinitionResultID := "D", ReferenceResultID := "R",
    HoverResultID := "", MonikerIDs := [] }

/-- A base bundle with no documents and one empty chunk. -/
def emptyBase : GroupedBundleDataMaps := ⟨⟨1⟩, [], [(0, ⟨[], []⟩)]⟩

/-- Patch bundle for the document-ID relocation scenario: a definition in
added file `a`, referenced from added files `a` and `b`. -/
def patchAB : GroupedBundleDataMaps :=
  ⟨⟨1⟩,
   [("a", ⟨[("ra", rngA)]⟩), ("b", ⟨[("rb", rngB)]⟩)],
   [(0, ⟨[("pa", "a"), ("pb", "b")],
     [("D", [⟨"pa", "ra"⟩]), ("R", [⟨"pa", "ra"⟩, ⟨"pb", "rb"⟩])]⟩)]⟩

/-- File statuses marking both `a` and `b` as added. -/
def fsAB : List (Path × Status) := [("a", Status.Added), ("b", Status.Added)]

/-- An eight-draw identifier supply. -/
def sup8 : IDSupply :=
  [some "n1", some "n2", some "n3", some "n4",
   some "n5", some "n6", some "n7", some "n8"]

/-- A range in file `a` with its own result group `DA`/`RA`. -/
def rngA2 : RangeData :=
  { StartLine := 0, StartCharacter := 0, EndLine := 0, EndCharacter := 1,
    DefinitionResultID := "DA", ReferenceResultID := "RA",
    HoverResultID := "", MonikerIDs := [] }

/-- A range in file `b` with its own result group `DB`/`RB`. -/
def rngB2 : RangeData :=
  { StartLine := 2, StartCharacter := 0, EndLine := 2, EndCharacter := 1,
    DefinitionResultID := "DB", ReferenceResultID := "RB",
    HoverResultID := "", MonikerIDs := [] }

/-- Patch bundle for the traversal-order scenario: two added files with one
self-contained definition each; `DA` has one reference location, `DB` none. -/
def patchTwoDefs : GroupedBundleDataMaps :=
  ⟨⟨1⟩,
   [("a", ⟨[("ra", rngA2)]⟩), ("b", ⟨[("rb", rngB2)]⟩)],
   [(0, ⟨[("pa", "a"), ("pb", "b")],
     [("DA", [⟨"pa", "ra"⟩]), ("RA", [⟨"pa", "ra"⟩]),
      ("DB", [⟨"pb", "rb"⟩]), ("RB", [])]⟩)]⟩

/-- Invariant of the `removeRefsIn` fold: document-path tables are untouched,
every processed reference result's list has been filtered exactly once against
the removed path set, and every other list is untouched. -/
def RRInv (paths : List Path) (meta : MetaData)
    (chunks0 : List (Nat × ResultChunkData))
    (st : List ID × List (Nat × ResultChunkData)) : Prop :=
  (∀ I : ID, storedDP meta st.2 I = storedDP meta chunks0 I)
  ∧ (∀ I ∈ st.1, storedList meta st.2 I =
      (storedList meta chunks0 I).filter fun e =>
        decide (((mapLookup (storedDP meta chunks0 I) e.DocumentID).getD "") ∉ paths))
  ∧ (∀ I : ID, I ∉ st.1 → storedList meta st.2 I = storedList meta chunks0 I)

/-- Invariant carried through the merge loop: the base chunks stay clean of
deleted-path locations and their `documentPaths` keys stay distinct. -/
def MInv (fileStatus : List (Path × Status)) (baseMeta : MetaData) (st : MergeSt) : Prop :=
  CleanChunks fileStatus baseMeta st.baseChunks ∧ NodupDP baseMeta st.baseChunks

/-- Invariant of the per-reference loop: the chunk invariant, cleanliness of
the two accumulated location lists (resolved in the chunks that will receive
them), and correctness of the two allocation tables at the definition path. -/
def RLInv (fileStatus : List (Path × Status)) (baseMeta : MetaData) (path : Path)
    (defID refID : ID) (acc : RefLoopSt) : Prop :=
  MInv fileStatus baseMeta acc.st
  ∧ (∀ e ∈ acc.baseRefs, statusOf fileStatus
      ((mapLookup (storedDP baseMeta acc.st.baseChunks refID) e.DocumentID).getD "")
        ≠ Status.Deleted)
  ∧ (∀ e ∈ acc.baseDefs, statusOf fileStatus
      ((mapLookup (storedDP baseMeta acc.st.baseChunks defID) e.DocumentID).getD "")
        ≠ Status.Deleted)
  ∧ (∀ did : ID, mapLookup acc.refDocIDs path = some did →
      mapLookup (storedDP baseMeta acc.st.baseChunks refID) did = some path)
  ∧ (∀ did : ID, mapLookup acc.defDocIDs path = some did →
      mapLookup (storedDP baseMeta acc.st.baseChunks defID) did = some path)

/-! ### General lemmas about the association-list map operations -/

theorem mapLookup_insert_self {K V : Type} [DecidableEq K]
    (l : List (K × V)) (k : K) (v : V) : mapLookup (mapInsert l k v) k = some v := by
  induction l with
  | nil => simp [mapInsert, mapLookup]
  | cons kv rest ih =>
    by_cases h : kv.1 = k
    · simp [mapInsert, mapLookup, h]
    · simp [mapInsert, mapLookup, h, ih]

theorem mapLookup_insert_ne {K V : Type} [DecidableEq K]
    (l : List (K × V)) (k : K) (v : V) (k' : K) (h : k ≠ k') :
    mapLookup (mapInsert l k v) k' = mapLookup l k' := by
  induction l with
  | nil => simp [mapInsert, mapLookup, h]
  | cons kv rest ih =>
    by_cases hk : kv.1 = k
    · simp [mapInsert, mapLookup, hk, h]
    · simp only [mapInsert, hk, if_false, mapLookup]
      by_cases hk' : kv.1 = k' <;> simp [hk', ih]

theorem mapLookup_mem {K V : Type} [DecidableEq K]
    {l : List (K × V)} {k : K} {v : V} (h : mapLookup l k = some v) : (k, v) ∈ l := by
  induction l with
  | nil => simp [mapLookup] at h
  | cons kv rest ih =>
    rcases kv with ⟨k0, v0⟩
    by_cases hk : k0 = k
    · subst hk
      simp only [mapLookup, if_pos, Option.some.injEq] at h
      subst h
      exact List.mem_cons_self _ _
    · simp only [mapLookup] at h
      rw [if_neg hk] at h
      exact List.mem_cons_of_mem _ (ih h)

theorem mem_mapInsert {K V : Type} [DecidableEq K]
    {l : List (K × V)} {k : K} {v : V} {p : K × V} (h : p ∈ mapInsert l k v) :
    p = (k, v) ∨ p ∈ l := by
  induction l with
  | nil => simpa [mapInsert] using h
  | cons kv rest ih =>
    by_cases hk : kv.1 = k
    · simp only [mapInsert] at h
      rw [if_pos hk] at h
      rcases List.mem_cons.mp h with h' | h'
      · exact Or.inl h'
      · exact Or.inr (List.mem_cons_of_mem _ h')
    · simp only [mapInsert] at h
      rw [if_neg hk] at h
      rcases List.mem_cons.mp h with h' | h'
      · exact Or.inr (h' ▸ List.mem_cons_self _ _)
      · rcases ih h' with h'' | h''
        · exact Or.inl h''
        · exact Or.inr (List.mem_cons_of_mem _ h'')

theorem mem_keys_mapInsert {K V : Type} [DecidableEq K]
    {l : List (K × V)} {k : K} {v : V} {x : K}
    (h : x ∈ (mapInsert l k v).map Prod.fst) : x = k ∨ x ∈ l.map Prod.fst := by
  rcases List.mem_map.mp h with ⟨p, hp, hfst⟩
  rcases mem_mapInsert hp with rfl | hp'
  · exact Or.inl hfst.symm
  · exact Or.inr (List.mem_map.mpr ⟨p, hp', hfst⟩)

theorem nodup_keys_mapInsert {K V : Type} [DecidableEq K]
    (l : List (K × V)) (k : K) (v : V)
    (h : (l.map Prod.fst).Nodup) : ((mapInsert l k v).map Prod.fst).Nodup := by
  induction l with
  | nil => simp [mapInsert]
  | cons kv rest ih =>
    rcases kv with ⟨k0, v0⟩
    simp only [List.map_cons, List.nodup_cons] at h
    by_cases hk : k0 = k
    · subst hk
      have he : mapInsert ((k0, v0) :: rest) k0 v = (k0, v) :: rest := by
        simp [mapInsert]
      rw [he]
      simp only [List.map_cons, List.nodup_cons]
      exact ⟨h.1, h.2⟩
    · simp only [mapInsert]
      rw [if_neg hk]
      simp only [List.map_cons, List.nodup_cons]
      refine ⟨fun hmem => ?_, ih h.2⟩
      rcases mem_keys_mapInsert hmem with h' | h'
      · exact hk h'
      · exact h.1 h'

theorem mapLookup_eq_of_mem_nodup {K V : Type} [DecidableEq K]
    {l : List (K × V)} {k : K} {v : V}
    (hnd : (l.map Prod.fst).Nodup) (hmem : (k, v) ∈ l) : mapLookup l k = some v := by
  induction l with
  | nil => simp at hmem
  | cons kv rest ih =>
    simp only [List.map_cons, List.nodup_cons] at hnd
    rcases List.mem_cons.mp hmem with h | h
    · subst h
      simp [mapLookup]
    · have hk : kv.1 ≠ k := by
        intro hkk
        exact hnd.1 (hkk ▸ List.mem_map.mpr ⟨(k, v), h, rfl⟩)
      simp only [mapLookup]
      rw [if_neg hk]
      exact ih hnd.2 h

/-! ### Generic fold-invariant helpers -/

theorem foldl_rec {σ α : Type} (P : σ → Prop) (f : σ → α → σ) :
    ∀ (l : List α) (s : σ), P s → (∀ s a, a ∈ l → P s → P (f s a)) → P (l.foldl f s) := by
  intro l
  induction l with
  | nil => intro s hs _; simpa using hs
  | cons a rest ih =>
    intro s hs hstep
    simp only [List.foldl_cons]
    exact ih (f s a) (hstep s a (List.mem_cons_self _ _) hs)
      (fun s' b hb => hstep s' b (List.mem_cons_of_mem _ hb))

theorem foldl_est {σ α : Type} (Q : σ → Prop) (f : σ → α → σ) (x : α)
    (hx : ∀ s, Q (f s x)) (hpres : ∀ s a, Q s → Q (f s a)) :
    ∀ (l : List α) (s : σ), x ∈ l → Q (l.foldl f s) := by
  intro l
  induction l with
  | nil => intro s hmem; simp at hmem
  | cons a rest ih =>
    intro s hmem
    simp only [List.foldl_cons]
    rcases List.mem_cons.mp hmem with rfl | hmem'
    · exact foldl_rec Q f rest (f s x) (hx s) (fun s' b _ hb => hpres s' b hb)
    · exact ih (f s a) hmem'

/-! ### Claim theorems -/

/-- C1 (code bug): on an `unchanged` path whose sorted range sequences differ
in length, `unifyRangeIDs` does return the `UnmodifiedPathMismatch` error, but
`patchData` discards `unifyRangeIDs`'s return value, continues the merge and
returns success, contradicting the claimed immediate abort. -/
theorem patchData_discards_unify_mismatch :
    (unifyRangeIDs [("u", ⟨[("r1", rngU)]⟩)] ⟨1⟩ [("u", ⟨[]⟩)] [(0, ⟨[], []⟩)]
        [("u", Status.Unchanged)] []).err = some unequalUnmodifiedPathsErr
    ∧ (patchData ⟨⟨1⟩, [("u", ⟨[("r1", rngU)]⟩)], [(0, ⟨[], []⟩)]⟩
        ⟨⟨1⟩, [("u", ⟨[]⟩)], [(0, ⟨[], []⟩)]⟩
        [] [("u", Status.Unchanged)] [] []).err = none := by
  constructor <;> rfl

/-- C4 (code bug): when the unique-ID source fails during range-identifier
unification (a `Modified` path needing a fresh range ID with a failing
randomness draw), `unifyRangeIDs` returns the generation error, but
`patchData` discards it and completes the merge returning success,
contradicting the claimed unconditional propagation. -/
theorem patchData_swallows_id_failure :
    (unifyRangeIDs [] ⟨1⟩ [("m", ⟨[("r0", rngU)]⟩)] [(0, ⟨[], []⟩)]
        [("m", Status.Modified)] [none]).err.isSome = true
    ∧ (patchData ⟨⟨1⟩, [], [(0, ⟨[], []⟩)]⟩
        ⟨⟨1⟩, [("m", ⟨[("r0", rngU)]⟩)], [(0, ⟨[], []⟩)]⟩
        [] [("m", Status.Modified)] [none] []).err = none := by
  constructor <;> rfl

/-- C3 (code bug): for a `Modified` path, `unifyRangeIDs` mints a fresh range
ID (the supply is consumed) and stores the binding only in the global
`updatedRngIDs` table, while the relabel loop iterates the per-path table,
which stays empty: the document's range table keeps its old key `r0`, and no
location list is rewritten (the chunks are untouched), contradicting the
claimed in-place relabel and rewrite. -/
theorem unifyRangeIDs_changed_path_not_relabeled :
    (unifyRangeIDs [] ⟨1⟩ [("m", ⟨[("r0", rngU)]⟩)]
        [(0, ⟨[("px", "m")], [("R1", [⟨"px", "r0"⟩])]⟩)]
        [("m", Status.Modified)] [some "fresh1"]).err = none
    ∧ (unifyRangeIDs [] ⟨1⟩ [("m", ⟨[("r0", rngU)]⟩)]
        [(0, ⟨[("px", "m")], [("R1", [⟨"px", "r0"⟩])]⟩)]
        [("m", Status.Modified)] [some "fresh1"]).docs
        = [("m", ⟨[("r0", rngU)]⟩)]
    ∧ (unifyRangeIDs [] ⟨1⟩ [("m", ⟨[("r0", rngU)]⟩)]
        [(0, ⟨[("px", "m")], [("R1", [⟨"px", "r0"⟩])]⟩)]
        [("m", Status.Modified)] [some "fresh1"]).chunks
        = [(0, ⟨[("px", "m")], [("R1", [⟨"px", "r0"⟩])]⟩)]
    ∧ (unifyRangeIDs [] ⟨1⟩ [("m", ⟨[("r0", rngU)]⟩)]
        [(0, ⟨[("px", "m")], [("R1", [⟨"px", "r0"⟩])]⟩)]
        [("m", Status.Modified)] [some "fresh1"]).supply = [] := by
  refine ⟨rfl, by decide, by decide, rfl⟩

/-- C2 (code bug): merging the `patchAB` bundle (definition in added file
`a`, reference in added file `b`), the location entry appended for `b`'s
reference is stored with document ID `n5`, which the base reference chunk's
`documentPaths` resolves to `a` — the definition's path, not the path `b`
owning the reference — and consequently the merged document `b`'s range `rb`
carries reference result `n4` whose location list has no entry resolving to
`(b, rb)`. -/
theorem patchData_ref_documentID_resolves_to_def_path :
    (patchData emptyBase patchAB [] fsAB sup8 ["a"]).err = none
    ∧ storedList emptyBase.Meta
        (patchData emptyBase patchAB [] fsAB sup8 ["a"]).base.ResultChunks "n4"
        = [⟨"n5", "ra"⟩, ⟨"n5", "rb"⟩]
    ∧ resolvedPath emptyBase.Meta
        (patchData emptyBase patchAB [] fsAB sup8 ["a"]).base.ResultChunks "n4" "n5" = "a"
    ∧ mapLookup ((mapLookup
        (patchData emptyBase patchAB [] fsAB sup8 ["a"]).base.Documents "b").getD ⟨[]⟩).Ranges "rb"
        = some { rngB with DefinitionResultID := "n3", ReferenceResultID := "n4" }
    ∧ ∀ e ∈ storedList emptyBase.Meta
        (patchData emptyBase patchAB [] fsAB sup8 ["a"]).base.ResultChunks "n4",
        ¬ (resolvedPath emptyBase.Meta
            (patchData emptyBase patchAB [] fsAB sup8 ["a"]).base.ResultChunks "n4" e.DocumentID = "b"
           ∧ e.RangeID = "rb") := by
  refine ⟨rfl, by decide, by decide, by decide, by decide⟩

/-- C10: `getDefRef` is total — it returns the list stored in the computed
chunk under the result ID, and when the chunk is absent from the shard map or
holds no entry for the result ID it returns the empty list with the (possibly
zero-valued) chunk, never failing. -/
theorem getDefRef_total (resultID : ID) (meta : MetaData)
    (chunks : List (Nat × ResultChunkData)) :
    (getDefRef resultID meta chunks).1
      = (mapLookup (getDefRef resultID meta chunks).2.DocumentIDRangeIDs resultID).getD []
    ∧ (mapLookup chunks (HashKey resultID meta.NumResultChunks) = none →
        getDefRef resultID meta chunks = ([], ⟨[], []⟩))
    ∧ (∀ c, mapLookup chunks (HashKey resultID meta.NumResultChunks) = some c →
        mapLookup c.DocumentIDRangeIDs resultID = none →
        (getDefRef resultID meta chunks).1 = []) := by
  refine ⟨rfl, ?_, ?_⟩
  · intro h
    simp [getDefRef, h, mapLookup]
  · intro c hc hnone
    simp [getDefRef, hc, hnone]

/-- Witness for C10 at concrete inputs: an empty shard map and a shard
without the looked-up result ID both yield the empty location list. -/
theorem getDefRef_total_witness :
    getDefRef "x" ⟨1⟩ [] = ([], ⟨[], []⟩)
    ∧ (getDefRef "x" ⟨1⟩ [(0, ⟨[("i", "p")], [("y", [⟨"i", "r"⟩])]⟩)]).1 = [] := by
  constructor
  · exact (getDefRef_total "x" ⟨1⟩ []).2.1 rfl
  · exact (getDefRef_total "x" ⟨1⟩ [(0, ⟨[("i", "p")], [("y", [⟨"i", "r"⟩])]⟩)]).2.2
      ⟨[("i", "p")], [("y", [⟨"i", "r"⟩])]⟩ (by decide) (by decide)

/-- C6: the canonical result IDs used by the merge for a candidate definition
range: for an `unchanged` path they are exactly the definition/reference
result IDs of the base document's range at that range ID, with no identifier
drawn; for any other status they are two freshly minted identifiers. -/
theorem resolveResultIDs_spec (fileStatus : List (Path × Status)) (path : Path)
    (baseDoc : DocumentData) (defRngID : ID) (supply : IDSupply) :
    (statusOf fileStatus path = Status.Unchanged →
      resolveResultIDs fileStatus path baseDoc defRngID supply =
        (Except.ok ((rangeAt baseDoc.Ranges defRngID).DefinitionResultID,
                    (rangeAt baseDoc.Ranges defRngID).ReferenceResultID), supply))
    ∧ (∀ d r rest, statusOf fileStatus path ≠ Status.Unchanged →
        supply = some d :: some r :: rest →
        resolveResultIDs fileStatus path baseDoc defRngID supply =
          (Except.ok (d, r), rest)) := by
  constructor
  · intro h
    simp [resolveResultIDs, h]
  · intro d r rest h hs
    subst hs
    simp [resolveResultIDs, h, newID]

theorem compareRanges_le_iff (a b : RangeData) :
    CompareRanges a b ≤ 0 ↔
      (a.StartLine < b.StartLine ∨ (a.StartLine = b.StartLine ∧
        (a.StartCharacter < b.StartCharacter ∨ (a.StartCharacter = b.StartCharacter ∧
          (a.EndLine < b.EndLine ∨ (a.EndLine = b.EndLine ∧
            a.EndCharacter ≤ b.EndCharacter)))))) := by
  unfold CompareRanges
  split_ifs <;> omega

theorem compareRanges_le_total (a b : RangeData) :
    CompareRanges a b ≤ 0 ∨ CompareRanges b a ≤ 0 := by
  rw [compareRanges_le_iff, compareRanges_le_iff]
  omega

theorem compareRanges_le_trans (a b c : RangeData) :
    CompareRanges a b ≤ 0 → CompareRanges b c ≤ 0 → CompareRanges a c ≤ 0 := by
  rw [compareRanges_le_iff, compareRanges_le_iff, compareRanges_le_iff]
  omega

/-- C9 counterexample: on equal inputs with the identical identifier sequence
`sup8`, traversing the definition-path groups in the two valid orders
`["a", "b"]` and `["b", "a"]` (both enumerate exactly the group keys) yields
structurally different merged bundles — result `n4`'s stored location list
differs — so the merge is not reproducible from the inputs and the ID
sequence alone. -/
theorem patchData_group_order_counterexample :
    ((collectDefResults (pathsToCopy [] fsAB) patchTwoDefs.Meta
        (unifyRangeIDs emptyBase.Documents patchTwoDefs.Meta patchTwoDefs.Documents
          patchTwoDefs.ResultChunks fsAB sup8).docs
        (unifyRangeIDs emptyBase.Documents patchTwoDefs.Meta patchTwoDefs.Documents
          patchTwoDefs.ResultChunks fsAB sup8).chunks).map Prod.fst = ["a", "b"])
    ∧ List.Perm ["b", "a"] ["a", "b"]
    ∧ (patchData emptyBase patchTwoDefs [] fsAB sup8 ["a", "b"]).err = none
    ∧ (patchData emptyBase patchTwoDefs [] fsAB sup8 ["b", "a"]).err = none
    ∧ storedList emptyBase.Meta
        (patchData emptyBase patchTwoDefs [] fsAB sup8 ["a", "b"]).base.ResultChunks "n4"
      ≠ storedList emptyBase.Meta
        (patchData emptyBase patchTwoDefs [] fsAB sup8 ["b", "a"]).base.ResultChunks "n4"
    ∧ (patchData emptyBase patchTwoDefs [] fsAB sup8 ["a", "b"]).base
      ≠ (patchData emptyBase patchTwoDefs [] fsAB sup8 ["b", "a"]).base := by
  refine ⟨by decide, by decide, rfl, rfl, by decide, by decide⟩

/-- C9 (amended): with the traversal order of the definition-path groups
fixed, the merge is a function of its inputs; within a group the candidate
ranges are visited in `sortedRangeIDs` order, which lists every range ID of
the document (a permutation of the range table's keys) ascending by the
position tuple (startLine, startChar, endLine, endChar). -/
theorem sortedRangeIDs_spec (ranges : List (ID × RangeData)) :
    (sortedRangeIDs ranges).Perm (ranges.map Prod.fst)
    ∧ List.Pairwise
        (fun i j => CompareRanges (rangeAt ranges i) (rangeAt ranges j) ≤ 0)
        (sortedRangeIDs ranges) := by
  constructor
  · exact List.perm_insertionSort _ _
  · haveI ht : IsTotal ID (fun i j => CompareRanges (rangeAt ranges i) (rangeAt ranges j) ≤ 0) :=
      ⟨fun i j => compareRanges_le_total _ _⟩
    haveI htr : IsTrans ID (fun i j => CompareRanges (rangeAt ranges i) (rangeAt ranges j) ≤ 0) :=
      ⟨fun i j k => compareRanges_le_trans _ _ _⟩
    exact List.sorted_insertionSort _ _

theorem removeRefsIn_nil (meta : MetaData) (docs : List (Path × DocumentData))
    (chunks : List (Nat × ResultChunkData)) :
    removeRefsIn [] meta docs chunks = chunks := rfl

theorem collectDefResults_nil (patchMeta : MetaData)
    (patchDocs : List (Path × DocumentData)) (patchChunks : List (Nat × ResultChunkData)) :
    collectDefResults [] patchMeta patchDocs patchChunks = [] := rfl

theorem mergeAll_nilRes (fileStatus : List (Path × Status)) (ptc : List Path)
    (baseMeta : MetaData) (baseDocs : List (Path × DocumentData)) (patchMeta : MetaData)
    (patchChunks : List (Nat × ResultChunkData)) (order : List Path) (st : MergeSt) :
    mergeAll fileStatus ptc baseMeta baseDocs patchMeta patchChunks [] order st = st := by
  unfold mergeAll
  have h : (order.filter fun p =>
      (mapLookup ([] : List (Path × List (ID × RangeData))) p).isSome) = [] := by
    simp [mapLookup]
  rw [h]
  rfl

theorem deleteFold_id (fileStatus : List (Path × Status))
    (hall : ∀ ps ∈ fileStatus, ps.2 = Status.Unchanged) :
    ∀ d : List (Path × DocumentData),
      fileStatus.foldl (fun d ps => if ps.2 = Status.Deleted then mapErase d ps.1 else d) d = d := by
  induction fileStatus with
  | nil => intro d; rfl
  | cons a rest ih =>
    intro d
    have ha := hall a (List.mem_cons_self _ _)
    simp only [List.foldl_cons]
    rw [if_neg (by rw [ha]; exact fun h => Status.noConfusion h)]
    exact ih (fun ps hps => hall ps (List.mem_cons_of_mem _ hps)) d

/-- C8: merging a patch in which every classified file is `unchanged` and no
file was reindexed returns success, and the returned base bundle is
structurally equal to the original base bundle. -/
theorem patchData_identity_unchanged (base patch : GroupedBundleDataMaps)
    (fileStatus : List (Path × Status)) (supply : IDSupply) (defPathOrder : List Path)
    (hall : ∀ ps ∈ fileStatus, ps.2 = Status.Unchanged) :
    (patchData base patch [] fileStatus supply defPathOrder).err = none
    ∧ (patchData base patch [] fileStatus supply defPathOrder).base = base := by
  obtain ⟨bm, bd, bc⟩ := base
  have hmod : modifiedOrDeletedPaths fileStatus = [] := by
    unfold modifiedOrDeletedPaths
    rw [List.filter_eq_nil_iff.mpr, List.map_nil]
    intro ps hps
    rw [hall ps hps]
    decide
  have hptc : pathsToCopy [] fileStatus = [] := by
    unfold pathsToCopy
    rw [List.nil_append, List.filter_eq_nil_iff.mpr, List.map_nil]
    intro ps hps
    rw [hall ps hps]
    decide
  have hdel := deleteFold_id fileStatus hall bd
  constructor
  · simp only [patchData, patchMergeSt, patchUnify, hmod, hptc, removeRefsIn_nil,
      collectDefResults_nil, mergeAll_nilRes]
  · simp only [patchData, patchMergeSt, patchUnify, applyDocs, hmod, hptc, removeRefsIn_nil,
      collectDefResults_nil, mergeAll_nilRes]
    simp only [List.foldl_nil]
    rw [hdel]

/-- Witness for C8 at a concrete input: a one-document base, a patch marking
that document unchanged, and an empty reindex set leave the base bundle
exactly as it was. -/
theorem patchData_identity_unchanged_witness :
    (patchData ⟨⟨1⟩, [("u", ⟨[("r1", rngU)]⟩)], [(0, ⟨[("x", "u")], [("R1", [⟨"x", "r1"⟩])]⟩)]⟩
        ⟨⟨1⟩, [("u", ⟨[("q1", rngU)]⟩)], [(0, ⟨[], []⟩)]⟩
        [] [("u", Status.Unchanged)] sup8 ["u"]).base
      = ⟨⟨1⟩, [("u", ⟨[("r1", rngU)]⟩)], [(0, ⟨[("x", "u")], [("R1", [⟨"x", "r1"⟩])]⟩)]⟩ :=
  (patchData_identity_unchanged
    ⟨⟨1⟩, [("u", ⟨[("r1", rngU)]⟩)], [(0, ⟨[("x", "u")], [("R1", [⟨"x", "r1"⟩])]⟩)]⟩
    ⟨⟨1⟩, [("u", ⟨[("q1", rngU)]⟩)], [(0, ⟨[], []⟩)]⟩
    [("u", Status.Unchanged)] sup8 ["u"] (by decide)).2

/-- Witness for C6 at concrete inputs: an unchanged path reuses the base
range's stored IDs untouched; an added path consumes the two supplied IDs. -/
theorem resolveResultIDs_spec_witness :
    resolveResultIDs [("u", Status.Unchanged)] "u" ⟨[("r1", rngU)]⟩ "r1" [some "z1"]
      = (Except.ok ("D1", "R1"), [some "z1"])
    ∧ resolveResultIDs [("a", Status.Added)] "a" ⟨[]⟩ "r1" [some "z1", some "z2"]
      = (Except.ok ("z1", "z2"), []) := by
  constructor
  · have h := (resolveResultIDs_spec [("u", Status.Unchanged)] "u" ⟨[("r1", rngU)]⟩ "r1"
      [some "z1"]).1 (by decide)
    simpa [rangeAt, mapLookup, rngU] using h
  · exact (resolveResultIDs_spec [("a", Status.Added)] "a" ⟨[]⟩ "r1"
      [some "z1", some "z2"]).2 "z1" "z2" [] (by decide) rfl

/-! ### Effect of the chunk-write primitives on `storedList` and `storedDP` -/

theorem storedList_setChunkList_self (chunks : List (Nat × ResultChunkData))
    (meta : MetaData) (I : ID) (l : List DocumentIDRangeID) :
    storedList meta (setChunkList chunks meta I l) I = l := by
  simp [storedList, setChunkList, getDefRef, mapLookup_insert_self]

theorem storedList_setChunkList_ne (chunks : List (Nat × ResultChunkData))
    (meta : MetaData) (I : ID) (l : List DocumentIDRangeID) (J : ID) (h : J ≠ I) :
    storedList meta (setChunkList chunks meta I l) J = storedList meta chunks J := by
  by_cases hh : HashKey J meta.NumResultChunks = HashKey I meta.NumResultChunks
  · simp [storedList, setChunkList, getDefRef, hh, mapLookup_insert_self,
      mapLookup_insert_ne _ _ _ _ (Ne.symm h)]
  · simp [storedList, setChunkList, getDefRef,
      mapLookup_insert_ne _ _ _ _ (fun he => hh he.symm)]

theorem storedDP_setChunkList (chunks : List (Nat × ResultChunkData))
    (meta : MetaData) (I : ID) (l : List DocumentIDRangeID) (J : ID) :
    storedDP meta (setChunkList chunks meta I l) J = storedDP meta chunks J := by
  by_cases hh : HashKey J meta.NumResultChunks = HashKey I meta.NumResultChunks
  · simp [storedDP, setChunkList, getDefRef, hh, mapLookup_insert_self]
  · simp [storedDP, setChunkList, getDefRef,
      mapLookup_insert_ne _ _ _ _ (fun he => hh he.symm)]

theorem storedList_setChunkDocPath (chunks : List (Nat × ResultChunkData))
    (meta : MetaData) (I : ID) (docID : ID) (p : Path) (J : ID) :
    storedList meta (setChunkDocPath chunks meta I docID p) J = storedList meta chunks J := by
  by_cases hh : HashKey J meta.NumResultChunks = HashKey I meta.NumResultChunks
  · simp [storedList, setChunkDocPath, getDefRef, hh, mapLookup_insert_self]
  · simp [storedList, setChunkDocPath, getDefRef,
      mapLookup_insert_ne _ _ _ _ (fun he => hh he.symm)]

theorem storedDP_setChunkDocPath_eq (chunks : List (Nat × ResultChunkData))
    (meta : MetaData) (I : ID) (docID : ID) (p : Path) (J : ID)
    (hh : HashKey J meta.NumResultChunks = HashKey I meta.NumResultChunks) :
    storedDP meta (setChunkDocPath chunks meta I docID p) J =
      mapInsert (storedDP meta chunks J) docID p := by
  simp [storedDP, setChunkDocPath, getDefRef, hh, mapLookup_insert_self]

theorem storedDP_setChunkDocPath_ne (chunks : List (Nat × ResultChunkData))
    (meta : MetaData) (I : ID) (docID : ID) (p : Path) (J : ID)
    (hh : HashKey J meta.NumResultChunks ≠ HashKey I meta.NumResultChunks) :
    storedDP meta (setChunkDocPath chunks meta I docID p) J = storedDP meta chunks J := by
  simp [storedDP, setChunkDocPath, getDefRef,
    mapLookup_insert_ne _ _ _ _ (fun he => hh he.symm)]

/-! ### The `removeRefsIn` invariant -/

theorem removeRefsStep_inv (paths : List Path) (meta : MetaData)
    (chunks0 : List (Nat × ResultChunkData)) (st : List ID × List (Nat × ResultChunkData))
    (rng : RangeData) (h : RRInv paths meta chunks0 st) :
    RRInv paths meta chunks0 (removeRefsStep paths meta st rng) := by
  unfold removeRefsStep
  by_cases hmem : rng.ReferenceResultID ∈ st.1
  · simpa [hmem] using h
  · rw [if_neg hmem]
    have hlist : (getDefRef rng.ReferenceResultID meta st.2).1
        = storedList meta chunks0 rng.ReferenceResultID := h.2.2 _ hmem
    have hdp : (getDefRef rng.ReferenceResultID meta st.2).2.DocumentPaths
        = storedDP meta chunks0 rng.ReferenceResultID := h.1 _
    refine ⟨?_, ?_, ?_⟩
    · intro I
      rw [storedDP_setChunkList]
      exact h.1 I
    · intro I hI
      by_cases hIeq : I = rng.ReferenceResultID
      · subst hIeq
        rw [storedList_setChunkList_self, hlist, hdp]
      · rcases List.mem_cons.mp hI with h' | h'
        · exact absurd h' hIeq
        · rw [storedList_setChunkList_ne _ _ _ _ _ hIeq]
          exact h.2.1 I h'
    · intro I hI
      have hIeq : I ≠ rng.ReferenceResultID := fun h' => hI (h' ▸ List.mem_cons_self _ _)
      rw [storedList_setChunkList_ne _ _ _ _ _ hIeq]
      exact h.2.2 I (fun h' => hI (List.mem_cons_of_mem _ h'))

theorem removeRefsStep_procd_mono (paths : List Path) (meta : MetaData)
    (st : List ID × List (Nat × ResultChunkData)) (rng : RangeData) :
    st.1 ⊆ (removeRefsStep paths meta st rng).1 := by
  unfold removeRefsStep
  by_cases hmem : rng.ReferenceResultID ∈ st.1
  · rw [if_pos hmem]
    exact fun x hx => hx
  · rw [if_neg hmem]
    exact fun x hx => List.mem_cons_of_mem _ hx

theorem removeRefsStep_procd_self (paths : List Path) (meta : MetaData)
    (st : List ID × List (Nat × ResultChunkData)) (rng : RangeData) :
    rng.ReferenceResultID ∈ (removeRefsStep paths meta st rng).1 := by
  unfold removeRefsStep
  by_cases hmem : rng.ReferenceResultID ∈ st.1
  · rw [if_pos hmem]
    exact hmem
  · rw [if_neg hmem]
    exact List.mem_cons_self _ _

theorem rangesFold_procd_mono (paths : List Path) (meta : MetaData)
    (rngs : List RangeData) (st : List ID × List (Nat × ResultChunkData)) :
    st.1 ⊆ (rngs.foldl (removeRefsStep paths meta) st).1 := by
  have h := foldl_rec (fun s => st.1 ⊆ s.1) (removeRefsStep paths meta) rngs st
    (by exact fun x hx => hx)
    (fun s a _ hs => hs.trans (removeRefsStep_procd_mono paths meta s a))
  exact h

theorem removeRefsFold_inv (paths : List Path) (meta : MetaData)
    (docs : List (Path × DocumentData)) (chunks0 : List (Nat × ResultChunkData))
    (st0 : List ID × List (Nat × ResultChunkData)) (h0 : RRInv paths meta chunks0 st0) :
    RRInv paths meta chunks0 (removeRefsFold paths meta docs st0) := by
  unfold removeRefsFold
  exact foldl_rec (RRInv paths meta chunks0) _ paths st0 h0
    (fun s p _ hs => foldl_rec (RRInv paths meta chunks0) _ _ s hs
      (fun s' rng _ hs' => removeRefsStep_inv paths meta chunks0 s' rng hs'))

theorem removeRefsFold_procd (paths : List Path) (meta : MetaData)
    (docs : List (Path × DocumentData)) (st0 : List ID × List (Nat × ResultChunkData)) :
    ∀ p ∈ paths, ∀ pr ∈ ((mapLookup docs p).getD ⟨[]⟩).Ranges,
      pr.2.ReferenceResultID ∈ (removeRefsFold paths meta docs st0).1 := by
  intro p hp pr hpr
  unfold removeRefsFold
  refine foldl_est (fun s => pr.2.ReferenceResultID ∈ s.1) _ p ?_ ?_ paths st0 hp
  · intro s
    refine foldl_est (fun s' => pr.2.ReferenceResultID ∈ s'.1) _ pr.2 ?_ ?_ _ s
      (List.mem_map.mpr ⟨pr, hpr, rfl⟩)
    · intro s'
      exact removeRefsStep_procd_self paths meta s' pr.2
    · intro s' a hs'
      exact removeRefsStep_procd_mono paths meta s' a hs'
  · intro s a hs
    exact rangesFold_procd_mono paths meta _ s hs

/-- `removeRefsIn` never changes any chunk's `documentPaths` table. -/
theorem removeRefsIn_storedDP (paths : List Path) (meta : MetaData)
    (docs : List (Path × DocumentData)) (chunks : List (Nat × ResultChunkData)) :
    ∀ I : ID, storedDP meta (removeRefsIn paths meta docs chunks) I
      = storedDP meta chunks I := by
  have h0 : RRInv paths meta chunks ([], chunks) :=
    ⟨fun _ => rfl, fun I hI => absurd hI (List.not_mem_nil _), fun _ _ => rfl⟩
  exact fun I => (removeRefsFold_inv paths meta docs chunks ([], chunks) h0).1 I

/-- C5: after `removeRefsIn` runs, (i) for every range of every document at a
removed path, the reference result's stored location list has no entry
resolving to a removed path; (ii) no `documentPaths` table changes; (iii)
every stored list is either untouched or the original filtered exactly once
against the removed set; (iv) an empty removed set leaves the chunks
entirely unchanged. -/
theorem removeRefsIn_spec (paths : List Path) (meta : MetaData)
    (docs : List (Path × DocumentData)) (chunks : List (Nat × ResultChunkData)) :
    (∀ p ∈ paths, ∀ pr ∈ ((mapLookup docs p).getD ⟨[]⟩).Ranges,
      ∀ e ∈ storedList meta (removeRefsIn paths meta docs chunks) pr.2.ReferenceResultID,
        resolvedPath meta (removeRefsIn paths meta docs chunks)
          pr.2.ReferenceResultID e.DocumentID ∉ paths)
    ∧ (∀ I : ID, storedDP meta (removeRefsIn paths meta docs chunks) I
        = storedDP meta chunks I)
    ∧ (∀ I : ID,
        storedList meta (removeRefsIn paths meta docs chunks) I = storedList meta chunks I
        ∨ storedList meta (removeRefsIn paths meta docs chunks) I =
            (storedList meta chunks I).filter fun e =>
              decide (((mapLookup (storedDP meta chunks I) e.DocumentID).getD "") ∉ paths))
    ∧ (paths = [] → removeRefsIn paths meta docs chunks = chunks) := by
  have h0 : RRInv paths meta chunks ([], chunks) :=
    ⟨fun _ => rfl, fun I hI => absurd hI (List.not_mem_nil _), fun _ _ => rfl⟩
  have hinv := removeRefsFold_inv paths meta docs chunks ([], chunks) h0
  have hproc := removeRefsFold_procd paths meta docs ([], chunks)
  refine ⟨?_, ?_, ?_, ?_⟩
  · intro p hp pr hpr e he
    have hI := hproc p hp pr hpr
    have hfil := hinv.2.1 _ hI
    rw [removeRefsIn] at *
    rw [hfil] at he
    have hmem := List.mem_filter.mp he
    have hpred := of_decide_eq_true hmem.2
    unfold resolvedPath
    rw [hinv.1]
    exact hpred
  · intro I
    exact hinv.1 I
  · intro I
    by_cases hI : I ∈ (removeRefsFold paths meta docs ([], chunks)).1
    · exact Or.inr (hinv.2.1 I hI)
    · exact Or.inl (hinv.2.2 I hI)
  · intro h
    subst h
    rfl

/-- Witness for C5 at a concrete input: removing path `d` from a base whose
result `R` lists one location in `d` and one in `k` leaves `R` with only the
`k` location, whose resolved path is not the removed one. -/
theorem removeRefsIn_spec_witness :
    ∀ e ∈ storedList ⟨1⟩
      (removeRefsIn ["d"] ⟨1⟩ [("d", ⟨[("r1", rngU)]⟩)]
        [(0, ⟨[("x", "d"), ("y", "k")], [("R1", [⟨"x", "r1"⟩, ⟨"y", "r9"⟩])]⟩)]) "R1",
      resolvedPath ⟨1⟩
        (removeRefsIn ["d"] ⟨1⟩ [("d", ⟨[("r1", rngU)]⟩)]
          [(0, ⟨[("x", "d"), ("y", "k")], [("R1", [⟨"x", "r1"⟩, ⟨"y", "r9"⟩])]⟩)]) "R1"
        e.DocumentID ∉ ["d"] := by
  have h := (removeRefsIn_spec ["d"] ⟨1⟩ [("d", ⟨[("r1", rngU)]⟩)]
    [(0, ⟨[("x", "d"), ("y", "k")], [("R1", [⟨"x", "r1"⟩, ⟨"y", "r9"⟩])]⟩)]).1
  intro e he
  exact h "d" (by decide) ("r1", rngU) (by decide) e he

/-! ### Further map and fold lemmas used by the deletion-correctness proof -/

theorem mapLookup_erase_self {K V : Type} [DecidableEq K]
    (l : List (K × V)) (k : K) : mapLookup (mapErase l k) k = none := by
  induction l with
  | nil => rfl
  | cons kv rest ih =>
    by_cases hk : kv.1 = k
    · simp only [mapErase]
      rw [if_pos hk]
      exact ih
    · simp only [mapErase]
      rw [if_neg hk]
      simp only [mapLookup]
      rw [if_neg hk]
      exact ih

theorem mapLookup_erase_none {K V : Type} [DecidableEq K]
    (l : List (K × V)) (k k' : K) (h : mapLookup l k' = none) :
    mapLookup (mapErase l k) k' = none := by
  induction l with
  | nil => rfl
  | cons kv rest ih =>
    by_cases hk' : kv.1 = k'
    · simp only [mapLookup] at h
      rw [if_pos hk'] at h
      exact absurd h (by simp)
    · simp only [mapLookup] at h
      rw [if_neg hk'] at h
      by_cases hk : kv.1 = k
      · simp only [mapErase]
        rw [if_pos hk]
        exact ih h
      · simp only [mapErase]
        rw [if_neg hk]
        simp only [mapLookup]
        rw [if_neg hk']
        exact ih h

theorem mapLookup_insert_same_value {K V : Type} [DecidableEq K]
    (l : List (K × V)) (k k' : K) (v : V)
    (h : mapLookup l k' = some v) : mapLookup (mapInsert l k v) k' = some v := by
  by_cases hk : k = k'
  · subst hk
    exact mapLookup_insert_self l k v
  · rw [mapLookup_insert_ne _ _ _ _ hk]
    exact h

theorem revFold_lookup {dp : List (ID × Path)} {q : Path} {d : ID} :
    ∀ acc : List (Path × ID),
      mapLookup (dp.foldl (fun m ip => mapInsert m ip.2 ip.1) acc) q = some d →
      (d, q) ∈ dp ∨ mapLookup acc q = some d := by
  induction dp with
  | nil => exact fun acc h => Or.inr h
  | cons ip rest ih =>
    intro acc h
    simp only [List.foldl_cons] at h
    rcases ih _ h with h' | h'
    · exact Or.inl (List.mem_cons_of_mem _ h')
    · by_cases hq : ip.2 = q
      · subst hq
        rw [mapLookup_insert_self] at h'
        have hd : ip.1 = d := by simpa using h'
        left
        rw [← hd]
        exact List.mem_cons_self _ _
      · rw [mapLookup_insert_ne _ _ _ _ hq] at h'
        exact Or.inr h'

theorem statusOf_deleted_mem_modOrDel (fileStatus : List (Path × Status)) (p : Path)
    (h : statusOf fileStatus p = Status.Deleted) :
    p ∈ modifiedOrDeletedPaths fileStatus := by
  unfold statusOf at h
  cases hl : mapLookup fileStatus p with
  | none =>
    rw [hl] at h
    exact absurd h (by decide)
  | some s =>
    rw [hl] at h
    simp only [Option.getD_some] at h
    subst h
    have hm := mapLookup_mem hl
    unfold modifiedOrDeletedPaths
    exact List.mem_map.mpr ⟨(p, Status.Deleted),
      List.mem_filter.mpr ⟨hm, rfl⟩, rfl⟩

/-- After `removeRefsIn` has purged the modified-or-deleted set, no stored
location entry resolves to a deleted path, provided every list holding such
an entry is reachable as the reference result of some range of a document at
a modified-or-deleted path. -/
theorem removeRefsIn_cleanDeleted (fileStatus : List (Path × Status)) (meta : MetaData)
    (docs : List (Path × DocumentData)) (chunks : List (Nat × ResultChunkData))
    (hcover : ∀ I : ID,
      (∃ e ∈ storedList meta chunks I,
        ((mapLookup (storedDP meta chunks I) e.DocumentID).getD "")
          ∈ modifiedOrDeletedPaths fileStatus) →
      ∃ p ∈ modifiedOrDeletedPaths fileStatus,
        ∃ pr ∈ ((mapLookup docs p).getD ⟨[]⟩).Ranges, pr.2.ReferenceResultID = I) :
    CleanChunks fileStatus meta
      (removeRefsIn (modifiedOrDeletedPaths fileStatus) meta docs chunks) := by
  have h0 : RRInv (modifiedOrDeletedPaths fileStatus) meta chunks ([], chunks) :=
    ⟨fun _ => rfl, fun I hI => absurd hI (List.not_mem_nil _), fun _ _ => rfl⟩
  have hinv := removeRefsFold_inv (modifiedOrDeletedPaths fileStatus) meta docs chunks
    ([], chunks) h0
  have hproc := removeRefsFold_procd (modifiedOrDeletedPaths fileStatus) meta docs
    ([], chunks)
  intro I e he
  unfold resolvedPath removeRefsIn
  unfold removeRefsIn at he
  rw [hinv.1]
  intro hdel
  have hmem : ((mapLookup (storedDP meta chunks I) e.DocumentID).getD "")
      ∈ modifiedOrDeletedPaths fileStatus :=
    statusOf_deleted_mem_modOrDel _ _ hdel
  by_cases hI : I ∈ (removeRefsFold (modifiedOrDeletedPaths fileStatus) meta docs
      ([], chunks)).1
  · have hfil := hinv.2.1 I hI
    rw [hfil] at he
    have hpred := of_decide_eq_true (List.mem_filter.mp he).2
    exact hpred hmem
  · have horig := hinv.2.2 I hI
    rw [horig] at he
    rcases hcover I ⟨e, he, hmem⟩ with ⟨p, hp, pr, hpr, href⟩
    exact hI (href ▸ hproc p hp pr hpr)

/-- Keys of `collectDefResults` are paths resolved through the patch chunks'
`documentPaths` tables (or the empty path): none of them is deleted when the
patch's tables mention no deleted path. -/
theorem collectDefResults_keys (fileStatus : List (Path × Status)) (ptc : List Path)
    (patchMeta : MetaData) (patchDocs : List (Path × DocumentData))
    (patchChunks : List (Nat × ResultChunkData))
    (hdp : ∀ I id : ID, statusOf fileStatus
      ((mapLookup (storedDP patchMeta patchChunks I) id).getD "") ≠ Status.Deleted) :
    ∀ p ∈ (collectDefResults ptc patchMeta patchDocs patchChunks).map Prod.fst,
      statusOf fileStatus p ≠ Status.Deleted := by
  simp only [collectDefResults]
  refine foldl_rec
    (fun acc : List (Path × List (ID × RangeData)) =>
      ∀ p ∈ acc.map Prod.fst, statusOf fileStatus p ≠ Status.Deleted)
    _ ptc [] ?_ ?_
  · intro p hp
    rw [List.map_nil] at hp
    exact absurd hp (List.not_mem_nil p)
  intro acc path _ hacc
  refine foldl_rec
    (fun acc : List (Path × List (ID × RangeData)) =>
      ∀ p ∈ acc.map Prod.fst, statusOf fileStatus p ≠ Status.Deleted)
    _ _ acc hacc ?_
  intro acc2 pr _ hacc2
  by_cases hdef : pr.2.DefinitionResultID = ""
  · rw [if_pos hdef]
    exact hacc2
  · rw [if_neg hdef]
    refine foldl_rec
      (fun acc : List (Path × List (ID × RangeData)) =>
        ∀ p ∈ acc.map Prod.fst, statusOf fileStatus p ≠ Status.Deleted)
      _ _ acc2 hacc2 ?_
    intro acc3 defLoc _ hacc3
    cases hml : mapLookup ((mapLookup acc3
        ((mapLookup (getDefRef pr.2.DefinitionResultID patchMeta patchChunks).2.DocumentPaths
          defLoc.DocumentID).getD "")).getD []) defLoc.RangeID with
    | some v => exact hacc3
    | none =>
      intro p hp
      rcases mem_keys_mapInsert hp with rfl | hp'
      · exact hdp pr.2.DefinitionResultID defLoc.DocumentID
      · exact hacc3 p hp'

theorem storedDP_rewriteResult (meta : MetaData) (upd : List (ID × ID))
    (ch : List (Nat × ResultChunkData)) (rid : ID) (J : ID) :
    storedDP meta (rewriteResult meta upd ch rid) J = storedDP meta ch J := by
  unfold rewriteResult
  exact storedDP_setChunkList ch meta rid _ J

/-! ### Cleanliness is preserved by the chunk-write primitives -/

theorem clean_setChunkDocPath (fileStatus : List (Path × Status)) (meta : MetaData)
    (chunks : List (Nat × ResultChunkData)) (I docID : ID) (p : Path)
    (hclean : CleanChunks fileStatus meta chunks)
    (hp : statusOf fileStatus p ≠ Status.Deleted) :
    CleanChunks fileStatus meta (setChunkDocPath chunks meta I docID p) := by
  intro J e he
  rw [storedList_setChunkDocPath] at he
  unfold resolvedPath
  by_cases hh : HashKey J meta.NumResultChunks = HashKey I meta.NumResultChunks
  · rw [storedDP_setChunkDocPath_eq _ _ _ _ _ _ hh]
    by_cases hd : docID = e.DocumentID
    · subst hd
      rw [mapLookup_insert_self]
      exact hp
    · rw [mapLookup_insert_ne _ _ _ _ hd]
      exact hclean J e he
  · rw [storedDP_setChunkDocPath_ne _ _ _ _ _ _ hh]
    exact hclean J e he

theorem nodup_setChunkDocPath (meta : MetaData) (chunks : List (Nat × ResultChunkData))
    (I docID : ID) (p : Path) (h : NodupDP meta chunks) :
    NodupDP meta (setChunkDocPath chunks meta I docID p) := by
  intro J
  by_cases hh : HashKey J meta.NumResultChunks = HashKey I meta.NumResultChunks
  · rw [storedDP_setChunkDocPath_eq _ _ _ _ _ _ hh]
    exact nodup_keys_mapInsert _ _ _ (h J)
  · rw [storedDP_setChunkDocPath_ne _ _ _ _ _ _ hh]
    exact h J

theorem nodup_setChunkList (meta : MetaData) (chunks : List (Nat × ResultChunkData))
    (I : ID) (l : List DocumentIDRangeID) (h : NodupDP meta chunks) :
    NodupDP meta (setChunkList chunks meta I l) := by
  intro J
  rw [storedDP_setChunkList]
  exact h J

theorem clean_setChunkList (fileStatus : List (Path × Status)) (meta : MetaData)
    (chunks : List (Nat × ResultChunkData)) (I : ID) (l : List DocumentIDRangeID)
    (hclean : CleanChunks fileStatus meta chunks)
    (hl : ∀ e ∈ l, statusOf fileStatus
      ((mapLookup (storedDP meta chunks I) e.DocumentID).getD "") ≠ Status.Deleted) :
    CleanChunks fileStatus meta (setChunkList chunks meta I l) := by
  intro J e he
  unfold resolvedPath
  rw [storedDP_setChunkList]
  by_cases hJ : J = I
  · subst hJ
    rw [storedList_setChunkList_self] at he
    exact hl e he
  · rw [storedList_setChunkList_ne _ _ _ _ _ hJ] at he
    exact hclean J e he

theorem mergeRefStageA_inv (fileStatus : List (Path × Status)) (path : Path)
    (baseMeta : MetaData) (defID refID : ID) (patchPath : Path)
    (patchRef : DocumentIDRangeID) (acc : RefLoopSt)
    (hpath : statusOf fileStatus path ≠ Status.Deleted)
    (h : RLInv fileStatus baseMeta path defID refID acc) :
    RLInv fileStatus baseMeta path defID refID
      (mergeRefStageA fileStatus path baseMeta refID patchPath patchRef acc) := by
  unfold mergeRefStageA
  by_cases hst : statusOf fileStatus patchPath ≠ Status.Unchanged
  · rw [if_pos hst]
    cases hml : mapLookup acc.refDocIDs path with
    | some did =>
      refine ⟨h.1, ?_, h.2.2.1, h.2.2.2.1, h.2.2.2.2⟩
      intro e he
      rcases List.mem_append.mp he with he' | he'
      · exact h.2.1 e he'
      · have he2 : e = ⟨did, patchRef.RangeID⟩ := by simpa using he'
        subst he2
        rw [h.2.2.2.1 did hml]
        exact hpath
    | none =>
      cases hnid : newID acc.st.supply with
      | mk res s' =>
        cases res with
        | error e1 =>
          exact ⟨⟨h.1.1, h.1.2⟩, h.2.1, h.2.2.1, h.2.2.2.1, h.2.2.2.2⟩
        | ok did =>
          have hhr : HashKey refID baseMeta.NumResultChunks
              = HashKey refID baseMeta.NumResultChunks := rfl
          have hdpr := storedDP_setChunkDocPath_eq acc.st.baseChunks baseMeta refID did path
            refID hhr
          refine ⟨⟨clean_setChunkDocPath _ _ _ _ _ _ h.1.1 hpath,
            nodup_setChunkDocPath _ _ _ _ _ h.1.2⟩, ?_, ?_, ?_, ?_⟩
          · intro e he
            rcases List.mem_append.mp he with he' | he'
            · rw [hdpr]
              by_cases hd : did = e.DocumentID
              · subst hd
                rw [mapLookup_insert_self]
                exact hpath
              · rw [mapLookup_insert_ne _ _ _ _ hd]
                exact h.2.1 e he'
            · have he2 : e = ⟨did, patchRef.RangeID⟩ := by simpa using he'
              subst he2
              rw [hdpr, mapLookup_insert_self]
              exact hpath
          · intro e he
            by_cases hhd : HashKey defID baseMeta.NumResultChunks
                = HashKey refID baseMeta.NumResultChunks
            · rw [storedDP_setChunkDocPath_eq _ _ _ _ _ _ hhd]
              by_cases hd : did = e.DocumentID
              · subst hd
                rw [mapLookup_insert_self]
                exact hpath
              · rw [mapLookup_insert_ne _ _ _ _ hd]
                exact h.2.2.1 e he
            · rw [storedDP_setChunkDocPath_ne _ _ _ _ _ _ hhd]
              exact h.2.2.1 e he
          · intro did' h'
            rw [mapLookup_insert_self] at h'
            have hd : did' = did := by simpa using h'.symm
            subst hd
            rw [hdpr]
            exact mapLookup_insert_self _ _ _
          · intro did' h'
            have hold := h.2.2.2.2 did' h'
            by_cases hhd : HashKey defID baseMeta.NumResultChunks
                = HashKey refID baseMeta.NumResultChunks
            · rw [storedDP_setChunkDocPath_eq _ _ _ _ _ _ hhd]
              exact mapLookup_insert_same_value _ _ _ _ hold
            · rw [storedDP_setChunkDocPath_ne _ _ _ _ _ _ hhd]
              exact hold
  · rw [if_neg hst]
    exact h

theorem mergeRefStageB_inv (fileStatus : List (Path × Status)) (path : Path)
    (baseMeta : MetaData) (defID refID : ID) (patchDefChunk : ResultChunkData)
    (patchDefs : List DocumentIDRangeID) (patchPath : Path)
    (patchRef : DocumentIDRangeID) (acc : RefLoopSt)
    (hpath : statusOf fileStatus path ≠ Status.Deleted)
    (h : RLInv fileStatus baseMeta path defID refID acc) :
    RLInv fileStatus baseMeta path defID refID
      (mergeRefStageB path baseMeta defID patchDefChunk patchDefs patchPath patchRef acc) := by
  unfold mergeRefStageB
  by_cases hbd : acc.baseDefs = []
  · rw [if_pos hbd]
    by_cases hfound : (patchDefs.any fun t =>
        decide ((mapLookup patchDefChunk.DocumentPaths t.DocumentID).getD "" = patchPath)
          && decide (t.RangeID = patchRef.RangeID)) = true
    · rw [if_pos hfound]
      cases hml : mapLookup acc.defDocIDs path with
      | some did =>
        refine ⟨h.1, h.2.1, ?_, h.2.2.2.1, h.2.2.2.2⟩
        intro e he
        rcases List.mem_append.mp he with he' | he'
        · exact h.2.2.1 e he'
        · have he2 : e = ⟨did, ((patchDefs.getLast?).getD default).RangeID⟩ := by
            simpa using he'
          subst he2
          rw [h.2.2.2.2 did hml]
          exact hpath
      | none =>
        cases hnid : newID acc.st.supply with
        | mk res s' =>
          cases res with
          | error e1 =>
            exact ⟨⟨h.1.1, h.1.2⟩, h.2.1, h.2.2.1, h.2.2.2.1, h.2.2.2.2⟩
          | ok did =>
            have hhd : HashKey defID baseMeta.NumResultChunks
                = HashKey defID baseMeta.NumResultChunks := rfl
            have hdpd := storedDP_setChunkDocPath_eq acc.st.baseChunks baseMeta defID did path
              defID hhd
            refine ⟨⟨clean_setChunkDocPath _ _ _ _ _ _ h.1.1 hpath,
              nodup_setChunkDocPath _ _ _ _ _ h.1.2⟩, ?_, ?_, ?_, ?_⟩
            · intro e he
              by_cases hhr : HashKey refID baseMeta.NumResultChunks
                  = HashKey defID baseMeta.NumResultChunks
              · rw [storedDP_setChunkDocPath_eq _ _ _ _ _ _ hhr]
                by_cases hd : did = e.DocumentID
                · subst hd
                  rw [mapLookup_insert_self]
                  exact hpath
                · rw [mapLookup_insert_ne _ _ _ _ hd]
                  exact h.2.1 e he
              · rw [storedDP_setChunkDocPath_ne _ _ _ _ _ _ hhr]
                exact h.2.1 e he
            · intro e he
              rcases List.mem_append.mp he with he' | he'
              · rw [hdpd]
                by_cases hd : did = e.DocumentID
                · subst hd
                  rw [mapLookup_insert_self]
                  exact hpath
                · rw [mapLookup_insert_ne _ _ _ _ hd]
                  exact h.2.2.1 e he'
              · have he2 : e = ⟨did, ((patchDefs.getLast?).getD default).RangeID⟩ := by
                  simpa using he'
                subst he2
                rw [hdpd, mapLookup_insert_self]
                exact hpath
            · intro did' h'
              have hold := h.2.2.2.1 did' h'
              by_cases hhr : HashKey refID baseMeta.NumResultChunks
                  = HashKey defID baseMeta.NumResultChunks
              · rw [storedDP_setChunkDocPath_eq _ _ _ _ _ _ hhr]
                exact mapLookup_insert_same_value _ _ _ _ hold
              · rw [storedDP_setChunkDocPath_ne _ _ _ _ _ _ hhr]
                exact hold
            · intro did' h'
              rw [mapLookup_insert_self] at h'
              have hd : did' = did := by simpa using h'.symm
              subst hd
              rw [hdpd]
              exact mapLookup_insert_self _ _ _
    · rw [if_neg hfound]
      exact h
  · rw [if_neg hbd]
    exact h

theorem mergeRefStageC_inv (fileStatus : List (Path × Status)) (ptc : List Path)
    (path : Path) (baseMeta : MetaData) (defID refID : ID) (patchPath : Path)
    (patchRef : DocumentIDRangeID) (acc : RefLoopSt)
    (h : RLInv fileStatus baseMeta path defID refID acc) :
    RLInv fileStatus baseMeta path defID refID
      (mergeRefStageC ptc defID refID patchPath patchRef acc) := by
  unfold mergeRefStageC
  by_cases hmem : patchPath ∈ ptc
  · rw [if_pos hmem]
    exact ⟨⟨h.1.1, h.1.2⟩, h.2.1, h.2.2.1, h.2.2.2.1, h.2.2.2.2⟩
  · rw [if_neg hmem]
    exact h

theorem mergeOneRef_inv (fileStatus : List (Path × Status)) (ptc : List Path)
    (path : Path) (baseMeta : MetaData) (patchRefChunk patchDefChunk : ResultChunkData)
    (patchDefs : List DocumentIDRangeID) (defID refID : ID)
    (acc : RefLoopSt) (patchRef : DocumentIDRangeID)
    (hpath : statusOf fileStatus path ≠ Status.Deleted)
    (h : RLInv fileStatus baseMeta path defID refID acc) :
    RLInv fileStatus baseMeta path defID refID
      (mergeOneRef fileStatus ptc path baseMeta patchRefChunk patchDefChunk
        patchDefs defID refID acc patchRef) := by
  unfold mergeOneRef
  by_cases herr : acc.st.err.isSome = true
  · rw [if_pos herr]
    exact h
  · rw [if_neg herr]
    have hA := mergeRefStageA_inv fileStatus path baseMeta defID refID
      ((mapLookup patchRefChunk.DocumentPaths patchRef.DocumentID).getD "") patchRef acc
      hpath h
    by_cases h1 : (mergeRefStageA fileStatus path baseMeta refID
        ((mapLookup patchRefChunk.DocumentPaths patchRef.DocumentID).getD "")
        patchRef acc).st.err.isSome = true
    · simp only [h1, if_true]
      exact hA
    · simp only [h1, if_false]
      have hB := mergeRefStageB_inv fileStatus path baseMeta defID refID patchDefChunk
        patchDefs ((mapLookup patchRefChunk.DocumentPaths patchRef.DocumentID).getD "")
        patchRef _ hpath hA
      by_cases h2 : (mergeRefStageB path baseMeta defID patchDefChunk patchDefs
          ((mapLookup patchRefChunk.DocumentPaths patchRef.DocumentID).getD "")
          patchRef (mergeRefStageA fileStatus path baseMeta refID
            ((mapLookup patchRefChunk.DocumentPaths patchRef.DocumentID).getD "")
            patchRef acc)).st.err.isSome = true
      · simp only [h2, if_true]
        exact hB
      · simp only [h2, if_false]
        exact mergeRefStageC_inv fileStatus ptc path baseMeta defID refID _ patchRef _ hB

/-- `unifyRangeIDs` never changes any chunk's `documentPaths` table: its only
chunk writes are location-list rewrites. -/
theorem unify_storedDP (updateToDocs : List (Path × DocumentData))
    (toUpdateMeta : MetaData) (toUpdateDocs : List (Path × DocumentData))
    (toUpdateChunks : List (Nat × ResultChunkData))
    (fileStatus : List (Path × Status)) (supply : IDSupply) :
    ∀ I : ID, storedDP toUpdateMeta
      (unifyRangeIDs updateToDocs toUpdateMeta toUpdateDocs toUpdateChunks
        fileStatus supply).chunks I
      = storedDP toUpdateMeta toUpdateChunks I := by
  intro I
  unfold unifyRangeIDs
  cases hse : (unifyFoldSt updateToDocs fileStatus toUpdateDocs supply).err with
  | some e => rfl
  | none =>
    exact foldl_rec
      (fun ch => storedDP toUpdateMeta ch I = storedDP toUpdateMeta toUpdateChunks I)
      _ _ toUpdateChunks rfl
      (fun ch rid _ hch => (storedDP_rewriteResult toUpdateMeta _ ch rid I).trans hch)

/-! ### The merge loop preserves the chunk invariant -/

theorem refLoopInit_inv (fileStatus : List (Path × Status)) (baseMeta : MetaData)
    (path : Path) (defID refID : ID) (st : MergeSt)
    (h : MInv fileStatus baseMeta st) :
    RLInv fileStatus baseMeta path defID refID (refLoopInit baseMeta defID refID st) := by
  refine ⟨h, ?_, ?_, ?_, ?_⟩
  · intro e he
    exact h.1 refID e he
  · intro e he
    exact h.1 defID e he
  · intro did hdid
    rcases revFold_lookup [] hdid with hmem | habs
    · exact mapLookup_eq_of_mem_nodup (h.2 refID) hmem
    · exact absurd habs (by simp [mapLookup])
  · intro did hdid
    rcases revFold_lookup [] hdid with hmem | habs
    · exact mapLookup_eq_of_mem_nodup (h.2 defID) hmem
    · exact absurd habs (by simp [mapLookup])

theorem refLoopRun_inv (fileStatus : List (Path × Status)) (ptc : List Path)
    (path : Path) (baseMeta : MetaData) (patchMeta : MetaData)
    (patchChunks : List (Nat × ResultChunkData)) (defID refID : ID)
    (drng : RangeData) (st : MergeSt)
    (hpath : statusOf fileStatus path ≠ Status.Deleted)
    (h : MInv fileStatus baseMeta st) :
    RLInv fileStatus baseMeta path defID refID
      (refLoopRun fileStatus ptc path baseMeta patchMeta patchChunks defID refID drng st) := by
  unfold refLoopRun
  exact foldl_rec (RLInv fileStatus baseMeta path defID refID) _ _ _
    (refLoopInit_inv fileStatus baseMeta path defID refID st h)
    (fun a pr _ ha => mergeOneRef_inv fileStatus ptc path baseMeta _ _ _ defID refID
      a pr hpath ha)

theorem mergeDefRangeCore_MInv (fileStatus : List (Path × Status)) (ptc : List Path)
    (path : Path) (baseMeta : MetaData) (patchMeta : MetaData)
    (patchChunks : List (Nat × ResultChunkData)) (defID refID : ID)
    (drng : RangeData) (st : MergeSt)
    (hpath : statusOf fileStatus path ≠ Status.Deleted)
    (h : MInv fileStatus baseMeta st) :
    MInv fileStatus baseMeta
      (mergeDefRangeCore fileStatus ptc path baseMeta patchMeta patchChunks
        defID refID drng st) := by
  have hrl := refLoopRun_inv fileStatus ptc path baseMeta patchMeta patchChunks
    defID refID drng st hpath h
  unfold mergeDefRangeCore
  by_cases he : (refLoopRun fileStatus ptc path baseMeta patchMeta patchChunks
      defID refID drng st).st.err.isSome = true
  · rw [if_pos he]
    exact hrl.1
  · rw [if_neg he]
    refine ⟨?_, ?_⟩
    · refine clean_setChunkList _ _ _ _ _ ?_ ?_
      · exact clean_setChunkList _ _ _ _ _ hrl.1.1 hrl.2.1
      · intro e he'
        rw [storedDP_setChunkList]
        exact hrl.2.2.1 e he'
    · exact nodup_setChunkList _ _ _ _ (nodup_setChunkList _ _ _ _ hrl.1.2)

theorem mergeDefRange_MInv (fileStatus : List (Path × Status)) (ptc : List Path)
    (path : Path) (baseMeta : MetaData) (baseDoc : DocumentData)
    (patchMeta : MetaData) (patchChunks : List (Nat × ResultChunkData))
    (defsMap : List (ID × RangeData)) (st : MergeSt) (defRngID : ID)
    (hpath : statusOf fileStatus path ≠ Status.Deleted)
    (h : MInv fileStatus baseMeta st) :
    MInv fileStatus baseMeta
      (mergeDefRange fileStatus ptc path baseMeta baseDoc patchMeta patchChunks
        defsMap st defRngID) := by
  unfold mergeDefRange
  by_cases herr : st.err.isSome = true
  · rw [if_pos herr]
    exact h
  · rw [if_neg herr]
    cases hres : resolveResultIDs fileStatus path baseDoc defRngID st.supply with
    | mk res s' =>
      cases res with
      | error e => exact ⟨h.1, h.2⟩
      | ok ids =>
        cases ids with
        | mk dID rID =>
          exact mergeDefRangeCore_MInv fileStatus ptc path baseMeta patchMeta patchChunks
            dID rID (rangeAt defsMap defRngID) _ hpath ⟨h.1, h.2⟩

theorem mergeOnePath_MInv (fileStatus : List (Path × Status)) (ptc : List Path)
    (baseMeta : MetaData) (baseDocs : List (Path × DocumentData))
    (patchMeta : MetaData) (patchChunks : List (Nat × ResultChunkData))
    (defRes : List (Path × List (ID × RangeData))) (st : MergeSt) (path : Path)
    (hpath : statusOf fileStatus path ≠ Status.Deleted)
    (h : MInv fileStatus baseMeta st) :
    MInv fileStatus baseMeta
      (mergeOnePath fileStatus ptc baseMeta baseDocs patchMeta patchChunks defRes st path) := by
  unfold mergeOnePath
  exact foldl_rec (MInv fileStatus baseMeta) _ _ st h
    (fun s a _ hs => mergeDefRange_MInv fileStatus ptc path baseMeta _ patchMeta
      patchChunks _ s a hpath hs)

theorem mergeAll_MInv (fileStatus : List (Path × Status)) (ptc : List Path)
    (baseMeta : MetaData) (baseDocs : List (Path × DocumentData))
    (patchMeta : MetaData) (patchChunks : List (Nat × ResultChunkData))
    (defRes : List (Path × List (ID × RangeData))) (order : List Path) (st : MergeSt)
    (hkeys : ∀ p ∈ defRes.map Prod.fst, statusOf fileStatus p ≠ Status.Deleted)
    (h : MInv fileStatus baseMeta st) :
    MInv fileStatus baseMeta
      (mergeAll fileStatus ptc baseMeta baseDocs patchMeta patchChunks defRes order st) := by
  unfold mergeAll
  refine foldl_rec (MInv fileStatus baseMeta) _ _ st h ?_
  intro s p hp hs
  have hp2 := (List.mem_filter.mp hp).2
  have hpmem : p ∈ defRes.map Prod.fst := by
    cases hl : mapLookup defRes p with
    | none =>
      rw [hl] at hp2
      exact absurd hp2 (by simp)
    | some v =>
      exact List.mem_map.mpr ⟨(p, v), mapLookup_mem hl, rfl⟩
  exact mergeOnePath_MInv fileStatus ptc baseMeta baseDocs patchMeta patchChunks
    defRes s p (hkeys p hpmem) hs

/-! ### The apply phase -/

theorem deleteFold_lookup_deleted (fileStatus : List (Path × Status))
    (d0 : List (Path × DocumentData)) (p : Path)
    (hdel : statusOf fileStatus p = Status.Deleted) :
    mapLookup (fileStatus.foldl
      (fun d ps => if ps.2 = Status.Deleted then mapErase d ps.1 else d) d0) p = none := by
  have hm : (p, Status.Deleted) ∈ fileStatus := by
    unfold statusOf at hdel
    cases hl : mapLookup fileStatus p with
    | none =>
      rw [hl] at hdel
      exact absurd hdel (by decide)
    | some s =>
      rw [hl] at hdel
      simp only [Option.getD_some] at hdel
      subst hdel
      exact mapLookup_mem hl
  refine foldl_est (fun d => mapLookup d p = none) _ (p, Status.Deleted) ?_ ?_
    fileStatus d0 hm
  · intro d
    rw [if_pos rfl]
    exact mapLookup_erase_self _ _
  · intro d a hd
    by_cases ha : a.2 = Status.Deleted
    · rw [if_pos ha]
      exact mapLookup_erase_none _ _ _ hd
    · rw [if_neg ha]
      exact hd

theorem copyFold_lookup_notin (ptc : List Path) (pd : List (Path × DocumentData))
    (d0 : List (Path × DocumentData)) (p : Path) (hp : p ∉ ptc)
    (h : mapLookup d0 p = none) :
    mapLookup (ptc.foldl
      (fun d q => mapInsert d q ((mapLookup pd q).getD ⟨[]⟩)) d0) p = none := by
  refine foldl_rec (fun d => mapLookup d p = none) _ ptc d0 h ?_
  intro d q hq hd
  have hqp : q ≠ p := by
    intro he
    subst he
    exact hp hq
  rw [mapLookup_insert_ne _ _ _ _ hqp]
  exact hd

theorem copyFold_lookup_in (ptc : List Path) (pd : List (Path × DocumentData))
    (d0 : List (Path × DocumentData)) :
    ∀ p ∈ ptc, mapLookup (ptc.foldl
      (fun d q => mapInsert d q ((mapLookup pd q).getD ⟨[]⟩)) d0) p
      = some ((mapLookup pd p).getD ⟨[]⟩) := by
  intro p hp
  refine foldl_est
    (fun d => mapLookup d p = some ((mapLookup pd p).getD ⟨[]⟩)) _ p ?_ ?_ ptc d0 hp
  · intro d
    exact mapLookup_insert_self _ _ _
  · intro d q hd
    by_cases hq : q = p
    · subst hq
      exact mapLookup_insert_self _ _ _
    · rw [mapLookup_insert_ne _ _ _ _ hq]
      exact hd

theorem deleted_not_mem_ptc (reindexedFiles : List Path)
    (fileStatus : List (Path × Status)) (p : Path)
    (hnd : (fileStatus.map Prod.fst).Nodup)
    (hreidx : ∀ q ∈ reindexedFiles, statusOf fileStatus q ≠ Status.Deleted)
    (hdel : statusOf fileStatus p = Status.Deleted) :
    p ∉ pathsToCopy reindexedFiles fileStatus := by
  intro hmem
  unfold pathsToCopy at hmem
  rcases List.mem_append.mp hmem with h | h
  · exact hreidx p h hdel
  · rcases List.mem_map.mp h with ⟨ps, hps, hfst⟩
    have hadd : ps.2 = Status.Added := of_decide_eq_true (List.mem_filter.mp hps).2
    have hmem2 : (p, Status.Added) ∈ fileStatus := by
      rw [← hfst, ← hadd, Prod.mk.eta]
      exact (List.mem_filter.mp hps).1
    have hl := mapLookup_eq_of_mem_nodup hnd hmem2
    unfold statusOf at hdel
    rw [hl] at hdel
    exact absurd hdel (by decide)

/-- C7 counterexample: a path may be both `deleted` and reindexed, in which
case the apply phase deletes the document and immediately copies it back from
the patch, so the merged bundle still has a `documents` entry for the deleted
path, refuting the claim as stated. -/
theorem patchData_deleted_reindexed_counterexample :
    statusOf [("d", Status.Deleted)] "d" = Status.Deleted
    ∧ (patchData ⟨⟨1⟩, [("d", ⟨[]⟩)], [(0, ⟨[], []⟩)]⟩ ⟨⟨1⟩, [], [(0, ⟨[], []⟩)]⟩
        ["d"] [("d", Status.Deleted)] [] []).err = none
    ∧ mapLookup (patchData ⟨⟨1⟩, [("d", ⟨[]⟩)], [(0, ⟨[], []⟩)]⟩
        ⟨⟨1⟩, [], [(0, ⟨[], []⟩)]⟩ ["d"] [("d", Status.Deleted)] [] []).base.Documents "d"
      = some ⟨[]⟩ := by
  refine ⟨rfl, rfl, by decide⟩

/-- C7 (amended): provided no deleted path was reindexed, the `fileStatus`
table has distinct keys, the base chunks' `documentPaths` keys are distinct,
every base location entry resolving into a modified-or-deleted path lies in a
list reachable as the reference result of some range of such a path, and the
patch chunks' `documentPaths` tables resolve no deleted path, then after a
successful merge the deleted paths are absent from the merged document map,
no location entry stored in any base chunk resolves to a deleted path, and
every copied path's document entry equals the patch's merged document. -/
theorem patchData_deletion_correct (base patch : GroupedBundleDataMaps)
    (reindexedFiles : List Path) (fileStatus : List (Path × Status))
    (supply : IDSupply) (defPathOrder : List Path)
    (hnd : (fileStatus.map Prod.fst).Nodup)
    (hreidx : ∀ q ∈ reindexedFiles, statusOf fileStatus q ≠ Status.Deleted)
    (hnodup : NodupDP base.Meta base.ResultChunks)
    (hcover : ∀ I : ID,
      (∃ e ∈ storedList base.Meta base.ResultChunks I,
        ((mapLookup (storedDP base.Meta base.ResultChunks I) e.DocumentID).getD "")
          ∈ modifiedOrDeletedPaths fileStatus) →
      ∃ p ∈ modifiedOrDeletedPaths fileStatus,
        ∃ pr ∈ ((mapLookup base.Documents p).getD ⟨[]⟩).Ranges,
          pr.2.ReferenceResultID = I)
    (hpatch : ∀ I id : ID, statusOf fileStatus
      ((mapLookup (storedDP patch.Meta patch.ResultChunks I) id).getD "")
        ≠ Status.Deleted)
    (hok : (patchData base patch reindexedFiles fileStatus supply defPathOrder).err
      = none) :
    (∀ p : Path, statusOf fileStatus p = Status.Deleted →
      mapLookup (patchData base patch reindexedFiles fileStatus supply
        defPathOrder).base.Documents p = none)
    ∧ CleanChunks fileStatus base.Meta
        (patchData base patch reindexedFiles fileStatus supply
          defPathOrder).base.ResultChunks
    ∧ (∀ p ∈ pathsToCopy reindexedFiles fileStatus,
        mapLookup (patchData base patch reindexedFiles fileStatus supply
          defPathOrder).base.Documents p
          = some ((mapLookup (patchData base patch reindexedFiles fileStatus supply
              defPathOrder).patch.Documents p).getD ⟨[]⟩)) := by
  have hclean0 : CleanChunks fileStatus base.Meta
      (removeRefsIn (modifiedOrDeletedPaths fileStatus) base.Meta base.Documents
        base.ResultChunks) :=
    removeRefsIn_cleanDeleted fileStatus base.Meta base.Documents base.ResultChunks hcover
  have hnodup0 : NodupDP base.Meta
      (removeRefsIn (modifiedOrDeletedPaths fileStatus) base.Meta base.Documents
        base.ResultChunks) := by
    intro I
    rw [removeRefsIn_storedDP (modifiedOrDeletedPaths fileStatus) base.Meta base.Documents
      base.ResultChunks I]
    exact hnodup I
  have hdpU : ∀ I id : ID, statusOf fileStatus
      ((mapLookup (storedDP patch.Meta (patchUnify base patch fileStatus supply).chunks I)
        id).getD "") ≠ Status.Deleted := by
    intro I id
    unfold patchUnify
    rw [unify_storedDP]
    exact hpatch I id
  have hkeys := collectDefResults_keys fileStatus (pathsToCopy reindexedFiles fileStatus)
    patch.Meta (patchUnify base patch fileStatus supply).docs
    (patchUnify base patch fileStatus supply).chunks hdpU
  have hM : MInv fileStatus base.Meta
      (patchMergeSt base patch reindexedFiles fileStatus supply defPathOrder) := by
    unfold patchMergeSt
    exact mergeAll_MInv _ _ _ _ _ _ _ _ _ hkeys ⟨hclean0, hnodup0⟩
  have hmerr : (patchMergeSt base patch reindexedFiles fileStatus supply defPathOrder).err
      = none := by
    cases hm : (patchMergeSt base patch reindexedFiles fileStatus supply defPathOrder).err with
    | none => rfl
    | some e =>
      have hpe : (patchData base patch reindexedFiles fileStatus supply defPathOrder).err
          = some e := by
        unfold patchData
        rw [hm]
      rw [hpe] at hok
      exact absurd hok (by simp)
  have hpd : patchData base patch reindexedFiles fileStatus supply defPathOrder
      = ⟨none,
         ⟨base.Meta,
          applyDocs base reindexedFiles fileStatus
            (patchMergeSt base patch reindexedFiles fileStatus supply defPathOrder).patchDocs,
          (patchMergeSt base patch reindexedFiles fileStatus supply defPathOrder).baseChunks⟩,
         ⟨patch.Meta,
          (patchMergeSt base patch reindexedFiles fileStatus supply defPathOrder).patchDocs,
          (patchUnify base patch fileStatus supply).chunks⟩,
         (patchMergeSt base patch reindexedFiles fileStatus supply defPathOrder).supply⟩ := by
    unfold patchData
    rw [hmerr]
  rw [hpd]
  refine ⟨?_, ?_, ?_⟩
  · intro p hdel
    unfold applyDocs
    exact copyFold_lookup_notin _ _ _ p
      (deleted_not_mem_ptc reindexedFiles fileStatus p hnd hreidx hdel)
      (deleteFold_lookup_deleted fileStatus base.Documents p hdel)
  · exact hM.1
  · intro p hp
    unfold applyDocs
    exact copyFold_lookup_in _ _ _ p hp

/-- Witness for C7 (amended) at a concrete input: deleting document `d`,
whose reference result `R1` lists one location inside `d`, leaves a merged
bundle with no `documents` entry for `d`. -/
theorem patchData_deletion_correct_witness :
    mapLookup (patchData
      ⟨⟨1⟩, [("d", ⟨[("r1", rngU)]⟩)], [(0, ⟨[("x", "d")], [("R1", [⟨"x", "r1"⟩])]⟩)]⟩
      ⟨⟨1⟩, [], [(0, ⟨[], []⟩)]⟩ [] [("d", Status.Deleted)] [] []).base.Documents "d"
      = none := by
  have h := patchData_deletion_correct
    ⟨⟨1⟩, [("d", ⟨[("r1", rngU)]⟩)], [(0, ⟨[("x", "d")], [("R1", [⟨"x", "r1"⟩])]⟩)]⟩
    ⟨⟨1⟩, [], [(0, ⟨[], []⟩)]⟩ [] [("d", Status.Deleted)] [] []
    (by decide)
    (by intro q hq; exact absurd hq (List.not_mem_nil q))
    (by
      intro I
      unfold storedDP getDefRef
      rw [show HashKey I (MetaData.mk 1).NumResultChunks = 0 from Nat.mod_one _]
      simp [mapLookup])
    (by
      intro I hI
      by_cases hIR : I = "R1"
      · subst hIR
        exact ⟨"d", by decide, ("r1", rngU), by decide, rfl⟩
      · exfalso
        rcases hI with ⟨e, he, _⟩
        unfold storedList getDefRef at he
        rw [show HashKey I (MetaData.mk 1).NumResultChunks = 0 from Nat.mod_one _] at he
        simp [mapLookup, show ("R1" : String) ≠ I from fun hh => hIR hh.symm] at he)
    (by
      intro I id
      unfold storedDP getDefRef
      rw [show HashKey I (MetaData.mk 1).NumResultChunks = 0 from Nat.mod_one _]
      simp [mapLookup, statusOf])
    rfl
  exact h.1 "d" (by decide)

end Patch
